import Mathlib

/-!
Verification of the aw-sync reconciliation engine (src/aw-sync/src/sync.rs).

The engine's own logic (`get_or_create_sync_bucket`, `sync_datastores`) is
embedded from the source.  The two storage backends (`Datastore`, `AwClient`)
are not part of the repository snapshot, so their behaviour behind the
`AccessMethod` trait is modelled from the spec's Store Port contract.
Timestamps (`DateTime<Utc>`) and durations are modelled as integers; JSON
values are modelled by a small inductive covering the shapes the engine uses.
-/

namespace AwSync

/-- JSON value model; the sync engine only ever builds string values
(`serde_json::json!(hostname)`), other constructors keep the type honest. -/
inductive JVal where
  | str (s : String)
  | num (n : Int)
  | boolean (b : Bool)
  | null
  deriving DecidableEq

/-- Event model from aw-models: store-local optional `id`, absolute
`timestamp`, `duration` span and a free-form payload. -/
structure Event where
  id : Option Nat
  timestamp : Int
  duration : Int
  data : List (String × JVal)
  deriving DecidableEq

/-- End instant of an event: `timestamp + duration`. -/
def Event.endTime (e : Event) : Int := e.timestamp + e.duration

/-- Bucket model from aw-models: the fields the sync engine reads and copies.
`data` is the metadata map (`bucket_new.data.insert(...)` in the source). -/
structure Bucket where
  id : String
  btype : String
  hostname : String
  client : String
  data : List (String × JVal)
  deriving DecidableEq

/-- Insert into a string-keyed map, replacing the value when the key is
present (serde_json map insert semantics). -/
def insertKV (m : List (String × JVal)) (k : String) (v : JVal) : List (String × JVal) :=
  match m with
  | [] => [(k, v)]
  | (k0, v0) :: rest => if k0 = k then (k, v) :: rest else (k0, v0) :: insertKV rest k v

/-- Lookup in a string-keyed map. -/
def lookupKV (m : List (String × JVal)) (k : String) : Option JVal :=
  match m with
  | [] => none
  | (k0, v0) :: rest => if k0 = k then some v0 else lookupKV rest k

/-- Error type of aw-datastore operations, as used by the engine. -/
inductive DatastoreError where
  | NoSuchBucket
  | BucketAlreadyExists
  | InternalError (msg : String)
  deriving DecidableEq

/-- Render a datastore error for panic messages. -/
def DatastoreError.describe : DatastoreError → String
  | .NoSuchBucket => "NoSuchBucket"
  | .BucketAlreadyExists => "BucketAlreadyExists"
  | .InternalError m => "InternalError: " ++ m

/-- The character list of the pattern `\x22-synced\x22` removed by the id mapper. -/
def syncedL : List Char := "-synced".toList

/-- Character list of the literal `\x22-synced-from-\x22` appended by the id mapper. -/
def syncedFromL : List Char := "-synced-from-".toList

theorem syncedL_eq : syncedL = ['-', 's', 'y', 'n', 'c', 'e', 'd'] := by decide

theorem syncedFromL_eq :
    syncedFromL = syncedL ++ ['-', 'f', 'r', 'o', 'm', '-'] := by decide

/-- Embedding of Rust `str::replace(\x22-synced\x22, \x22\x22)` on character lists:
scan left to right, drop each occurrence of the pattern, never rescanning
dropped regions. -/
def stripSynced : List Char → List Char
  | '-' :: 's' :: 'y' :: 'n' :: 'c' :: 'e' :: 'd' :: rest => stripSynced rest
  | c :: rest => c :: stripSynced rest
  | [] => []

/-- String-level wrapper for `stripSynced`. -/
def rustReplaceSynced (s : String) : String := String.mk (stripSynced s.data)

/-- Destination bucket id derived by `get_or_create_sync_bucket` (sync.rs
lines 242-246): strip `\x22-synced\x22` occurrences from the source id, then
append `\x22-synced-from-\x22` and the source bucket's hostname. -/
def newSyncId (bucket_from : Bucket) : String :=
  rustReplaceSynced bucket_from.id ++ "-synced-from-" ++ bucket_from.hostname

/-- Capability interface unifying the two backends (the `AccessMethod` trait).
Backends are state machines over a state type `σ`; fallible operations
return `Except`, and a Rust panic inside the engine is modelled as the
surrounding computation stopping with an error string. -/
structure AccessMethod (σ : Type) where
  get_buckets : σ → Except String (List Bucket × σ)
  get_bucket : σ → String → Except DatastoreError (Bucket × σ)
  create_bucket : σ → Bucket → Except DatastoreError σ
  get_events : σ → String → Option Int → Option Int → Option Nat →
    Except String (List Event × σ)
  insert_events : σ → String → List Event → Except String σ
  get_event_count : σ → String → Option Int → Option Int → Except String (Int × σ)
  heartbeat : σ → String → Event → Int → Except String (Event × σ)

/-- Mirror-bucket construction from `get_or_create_sync_bucket` (sync.rs
lines 251-262): clone the source bucket, give it the derived id, and stamp
the provenance metadata `sync.origin` and `sync.id`. -/
def mkSyncBucket (bucket_from : Bucket) : Bucket :=
  let bucket_new := { bucket_from with id := newSyncId bucket_from }
  { bucket_new with
    data := insertKV
      (insertKV bucket_new.data "sync.origin" (JVal.str bucket_from.hostname))
      "sync.id" (JVal.str bucket_from.id) }

/-- Embedding of `get_or_create_sync_bucket` (sync.rs lines 240-269).
Derives the destination id, fetches the bucket, and on `NoSuchBucket`
creates the provenance-stamped copy and re-fetches it.  `unwrap()` and
`panic!` are modelled as `Except.error`. -/
def get_or_create_sync_bucket {σ : Type} (m : AccessMethod σ) (bucket_from : Bucket)
    (s : σ) : Except String (Bucket × σ) :=
  let new_id := newSyncId bucket_from
  match m.get_bucket s new_id with
  | .ok (bucket, s1) => .ok (bucket, s1)
  | .error .NoSuchBucket =>
    match m.create_bucket s (mkSyncBucket bucket_from) with
    | .ok s2 =>
      match m.get_bucket s2 new_id with
      | .ok (bucket, s3) => .ok (bucket, s3)
      | .error e => .error ("panicked at unwrap: " ++ e.describe)
    | .error e => .error ("panicked at unwrap: " ++ e.describe)
  | .error e => .error ("panicked: " ++ e.describe)

/-- Stable insertion into a timestamp-sorted event list: the new event goes
after every event whose timestamp is not greater. -/
def insT (e : Event) : List Event → List Event
  | [] => [e]
  | x :: xs => if x.timestamp ≤ e.timestamp then x :: insT e xs else e :: x :: xs

/-- Stable sort of events ascending by timestamp, modelling Rust's stable
`sort_by(|a, b| a.timestamp.cmp(&b.timestamp))`. -/
def sortByTs (l : List Event) : List Event :=
  l.foldl (fun acc e => insT e acc) []

/-- Normalization of one event for transfer: the store-local id is cleared
(`new_e.id = None` in sync.rs line 304). -/
def stripId (e : Event) : Event := { e with id := none }

/-- Normalize-and-sort step of the pass (sync.rs lines 298-311): clear each
fetched event's store-local id, then sort ascending by timestamp. -/
def commitList (evs : List Event) : List Event :=
  sortByTs (evs.map stripId)

/-- Commit loop of the pass (sync.rs lines 313-315): one `heartbeat` call per
event, in list order, always with pulsetime 0.  A backend error is the
`unwrap()` panic; the state already written survives. -/
def hbLoop {σ : Type} (m : AccessMethod σ) (bucket_id : String) :
    σ → List Event → σ × Option String
  | s, [] => (s, none)
  | s, e :: rest =>
    match m.heartbeat s bucket_id e 0 with
    | .ok (_, s1) => hbLoop m bucket_id s1 rest
    | .error err => (s, some ("panicked at unwrap: " ++ err))

/-- Resume point of the pass (sync.rs lines 292-295): `timestamp + duration`
of the first event of the limit-1 fetch from the destination, or `none` when
that fetch is empty. -/
def resumeOf (most_recent_events : List Event) : Option Int :=
  match most_recent_events.head? with
  | some e => some (e.timestamp + e.duration)
  | none => none

/-- Result of syncing one source bucket: final source and destination states,
and either the reported delta (`countAfter - countBefore`) or the panic
message that aborted the bucket (and with it the whole pass). -/
structure BucketOutcome (σf σt : Type) where
  sf : σf
  st : σt
  res : Except String Int

/-- Embedding of the per-bucket body of `sync_datastores` (sync.rs lines
279-323): resolve/create the destination bucket, count, compute the resume
point from the destination's most recent event, fetch the source delta,
normalize, sort, commit via heartbeats, and count again. -/
def sync_bucket {σf σt : Type} (mf : AccessMethod σf) (mt : AccessMethod σt)
    (bucket_from : Bucket) (sf : σf) (st : σt) : BucketOutcome σf σt :=
  match get_or_create_sync_bucket mt bucket_from st with
  | .error e => ⟨sf, st, .error e⟩
  | .ok (bucket_to, st1) =>
    match mt.get_event_count st1 bucket_to.id none none with
    | .error e => ⟨sf, st1, .error ("panicked at unwrap: " ++ e)⟩
    | .ok (eventcount_to_old, st2) =>
      match mt.get_events st2 bucket_to.id none none (some 1) with
      | .error e => ⟨sf, st2, .error ("panicked at unwrap: " ++ e)⟩
      | .ok (most_recent_events, st3) =>
        match mf.get_events sf bucket_from.id (resumeOf most_recent_events) none none with
        | .error e => ⟨sf, st3, .error ("panicked at unwrap: " ++ e)⟩
        | .ok (evs, sf1) =>
          match hbLoop mt bucket_to.id st3 (commitList evs) with
          | (st4, some e) => ⟨sf1, st4, .error e⟩
          | (st4, none) =>
            match mt.get_event_count st4 bucket_to.id none none with
            | .error e => ⟨sf1, st4, .error ("panicked at unwrap: " ++ e)⟩
            | .ok (eventcount_to_new, st5) =>
              ⟨sf1, st5, .ok (eventcount_to_new - eventcount_to_old)⟩

/-- Outcome of a whole pass: final states, the per-bucket deltas reported in
order, and the panic message if the pass aborted. -/
structure SyncOutcome (σf σt : Type) where
  src : σf
  dst : σt
  deltas : List Int
  panicMsg : Option String

/-- Bucket loop of `sync_datastores`: buckets are processed in enumeration
order; the first panic aborts the remainder of the pass (every step in the
source unwraps). -/
def syncBuckets {σf σt : Type} (mf : AccessMethod σf) (mt : AccessMethod σt) :
    List Bucket → σf → σt → SyncOutcome σf σt
  | [], sf, st => ⟨sf, st, [], none⟩
  | b :: rest, sf, st =>
    let r := sync_bucket mf mt b sf st
    match r.res with
    | .error e => ⟨r.sf, r.st, [], some e⟩
    | .ok d =>
      let out := syncBuckets mf mt rest r.sf r.st
      ⟨out.src, out.dst, d :: out.deltas, out.panicMsg⟩

/-- Embedding of `sync_datastores` (sync.rs lines 272-325): enumerate the
source's buckets and sync each one into the destination. -/
def sync_datastores {σf σt : Type} (mf : AccessMethod σf) (mt : AccessMethod σt)
    (sf : σf) (st : σt) : SyncOutcome σf σt :=
  match mf.get_buckets sf with
  | .error e => ⟨sf, st, [], some ("panicked at unwrap: " ++ e)⟩
  | .ok (buckets, sf1) => syncBuckets mf mt buckets sf1 st

/-- One bucket of a modelled store: the bucket record plus its events in
insertion order. -/
structure StoreBucket where
  bucket : Bucket
  events : List Event
  deriving DecidableEq

/-- Modelled from the spec: a Store Port instance owns its buckets and
events (§3); modelled as a list of buckets in creation order. -/
abbrev Store : Type := List StoreBucket

/-- Lookup of a bucket by id in a modelled store. -/
def findB (s : Store) (bucket_id : String) : Option StoreBucket :=
  match s with
  | [] => none
  | sb :: rest => if sb.bucket.id = bucket_id then some sb else findB rest bucket_id

/-- Replace the event list of the bucket with the given id. -/
def updateB (s : Store) (bucket_id : String) (f : List Event → List Event) : Store :=
  match s with
  | [] => []
  | sb :: rest =>
    if sb.bucket.id = bucket_id then { sb with events := f sb.events } :: rest
    else sb :: updateB rest bucket_id f

/-- Modelled from the spec: range selection of `getEvents`/`countEvents`
(§4.1) — `startInclusive` and `endExclusive`, absent bounds unbounded. -/
def applyRange (start stop : Option Int) (l : List Event) : List Event :=
  l.filter (fun e =>
    (match start with | none => true | some t => decide (t ≤ e.timestamp)) &&
    (match stop with | none => true | some t => decide (e.timestamp < t)))

/-- Modelled from the spec: the `limit` of `getEvents` caps the count and the
backend takes from the most-recent end (§4.1, §6: `limit = 1` returns the
single most recent event), so a limit keeps the last `n` of the ascending
sequence. -/
def applyLim (limit : Option Nat) (l : List Event) : List Event :=
  match limit with
  | none => l
  | some n => l.drop (l.length - n)

/-- Extension of the most recently written event so that it covers a merged
one: its duration grows to reach the later of the two end instants. -/
def mergedEvent (last e : Event) : Event :=
  { last with duration := max last.endTime e.endTime - last.timestamp }

/-- Modelled from the spec: the merge-write (\x22heartbeat\x22) primitive of §4.1 —
if the most recently written event ends within `pulsetime` of the new
event's start, extend that event's duration to cover the new one; otherwise
insert the new event as-is.  Returns the written event and the new list. -/
def hbStep (pulsetime : Int) (l : List Event) (e : Event) : Event × List Event :=
  match l.getLast? with
  | none => (e, [e])
  | some last =>
    if -pulsetime ≤ e.timestamp - last.endTime ∧ e.timestamp - last.endTime ≤ pulsetime then
      (mergedEvent last e, l.dropLast ++ [mergedEvent last e])
    else (e, l ++ [e])

/-- Modelled from the spec: the Store Port contract of §4.1 instantiated by a
pure in-memory store.  `get_buckets` enumerates buckets, `get_bucket` fails
with `NoSuchBucket` when absent, `create_bucket` fails with
`BucketAlreadyExists` when the id is taken, `get_events` returns the
requested range ascending by timestamp with `limit` taking the most recent,
and `heartbeat` is the merge-write primitive. -/
def storeM : AccessMethod Store where
  get_buckets s := .ok (s.map (·.bucket), s)
  get_bucket s bucket_id :=
    match findB s bucket_id with
    | some sb => .ok (sb.bucket, s)
    | none => .error .NoSuchBucket
  create_bucket s bucket :=
    match findB s bucket.id with
    | some _ => .error .BucketAlreadyExists
    | none => .ok (s ++ [⟨bucket, []⟩])
  get_events s bucket_id start stop limit :=
    match findB s bucket_id with
    | some sb => .ok (applyLim limit (applyRange start stop (sortByTs sb.events)), s)
    | none => .error "NoSuchBucket"
  insert_events s bucket_id evs :=
    match findB s bucket_id with
    | some _ => .ok (updateB s bucket_id (fun l => l ++ evs))
    | none => .error "NoSuchBucket"
  get_event_count s bucket_id start stop :=
    match findB s bucket_id with
    | some sb => .ok ((applyRange start stop (sortByTs sb.events)).length, s)
    | none => .error "NoSuchBucket"
  heartbeat s bucket_id e pulsetime :=
    match findB s bucket_id with
    | some sb => .ok ((hbStep pulsetime sb.events e).1,
        updateB s bucket_id (fun l => (hbStep pulsetime l e).2))
    | none => .error "NoSuchBucket"

/-- Timestamp order on events (non-strict). -/
def tsLe (a b : Event) : Prop := a.timestamp ≤ b.timestamp

/-- Timestamp order on events (strict). -/
def tsLt (a b : Event) : Prop := a.timestamp < b.timestamp

theorem tsLt_le {a b : Event} (h : tsLt a b) : tsLe a b := le_of_lt h

theorem length_insT (e : Event) (l : List Event) : (insT e l).length = l.length + 1 := by
  induction l with
  | nil => rfl
  | cons x xs ih =>
    unfold insT
    by_cases h : x.timestamp ≤ e.timestamp
    · rw [if_pos h]
      simp only [List.length_cons, ih]
    · rw [if_neg h]
      simp only [List.length_cons]

theorem mem_insT {a e : Event} {l : List Event} : a ∈ insT e l ↔ a = e ∨ a ∈ l := by
  induction l with
  | nil => simp [insT]
  | cons x xs ih =>
    unfold insT
    by_cases h : x.timestamp ≤ e.timestamp
    · simp only [if_pos h, List.mem_cons, ih]
      tauto
    · simp only [if_neg h, List.mem_cons]

theorem insT_sorted {e : Event} {l : List Event} (h : l.Pairwise tsLe) :
    (insT e l).Pairwise tsLe := by
  induction l with
  | nil => simp [insT, List.pairwise_singleton]
  | cons x xs ih =>
    rw [List.pairwise_cons] at h
    unfold insT
    by_cases hx : x.timestamp ≤ e.timestamp
    · rw [if_pos hx, List.pairwise_cons]
      refine ⟨fun b hb => ?_, ih h.2⟩
      rcases mem_insT.mp hb with rfl | hb
      · exact hx
      · exact h.1 b hb
    · rw [if_neg hx, List.pairwise_cons]
      refine ⟨fun b hb => ?_, List.pairwise_cons.mpr h⟩
      rcases List.mem_cons.mp hb with rfl | hb
      · exact le_of_lt (lt_of_not_le hx)
      · exact le_of_lt (lt_of_lt_of_le (lt_of_not_le hx) (h.1 b hb))

theorem insT_of_all_le {e : Event} {l : List Event}
    (h : ∀ x ∈ l, x.timestamp ≤ e.timestamp) : insT e l = l ++ [e] := by
  induction l with
  | nil => rfl
  | cons x xs ih =>
    unfold insT
    rw [if_pos (h x (by simp)), ih (fun y hy => h y (by simp [hy]))]
    rfl

theorem foldl_insT_sorted (l : List Event) :
    ∀ acc : List Event, acc.Pairwise tsLe →
      (l.foldl (fun a e => insT e a) acc).Pairwise tsLe := by
  induction l with
  | nil => exact fun acc h => h
  | cons x xs ih => exact fun acc h => ih _ (insT_sorted h)

theorem sortByTs_sorted (l : List Event) : (sortByTs l).Pairwise tsLe :=
  foldl_insT_sorted l [] (List.Pairwise.nil)

theorem mem_foldl_insT (l : List Event) :
    ∀ (acc : List Event) (a : Event),
      a ∈ l.foldl (fun acc e => insT e acc) acc ↔ a ∈ acc ∨ a ∈ l := by
  induction l with
  | nil => simp
  | cons x xs ih =>
    intro acc a
    simp only [List.foldl_cons, ih, mem_insT, List.mem_cons]
    tauto

theorem mem_sortByTs {a : Event} {l : List Event} : a ∈ sortByTs l ↔ a ∈ l := by
  unfold sortByTs
  rw [mem_foldl_insT]
  simp

theorem length_foldl_insT (l : List Event) :
    ∀ acc : List Event,
      (l.foldl (fun acc e => insT e acc) acc).length = acc.length + l.length := by
  induction l with
  | nil => simp
  | cons x xs ih =>
    intro acc
    simp only [List.foldl_cons, ih, length_insT, List.length_cons]
    omega

theorem length_sortByTs (l : List Event) : (sortByTs l).length = l.length := by
  unfold sortByTs
  rw [length_foldl_insT]
  simp

theorem sortByTs_append_last (l : List Event) (e : Event) :
    sortByTs (l ++ [e]) = insT e (sortByTs l) := by
  unfold sortByTs
  rw [List.foldl_append]
  rfl

theorem sortByTs_of_sorted {l : List Event} (h : l.Pairwise tsLe) : sortByTs l = l := by
  induction l using List.reverseRecOn with
  | nil => rfl
  | append_singleton xs x ih =>
    rw [List.pairwise_append] at h
    rw [sortByTs_append_last, ih h.1,
      insT_of_all_le (fun y hy => h.2.2 y hy x (by simp))]

theorem applyRange_none_none (l : List Event) : applyRange none none l = l := by
  unfold applyRange
  simp

theorem applyRange_some_none (t : Int) (l : List Event) :
    applyRange (some t) none l = l.filter (fun e => decide (t ≤ e.timestamp)) := by
  unfold applyRange
  simp

theorem applyLim_one_nil : applyLim (some 1) [] = [] := rfl

theorem drop_length_sub_one :
    ∀ {l : List Event} {w : Event}, l.getLast? = some w → l.drop (l.length - 1) = [w]
  | [], _, h => by simp at h
  | [x], w, h => by
    simp only [List.getLast?_singleton, Option.some.injEq] at h
    subst h
    rfl
  | x :: y :: ys, w, h => by
    rw [List.getLast?_cons_cons] at h
    have ih := drop_length_sub_one h
    have hl1 : (y :: ys).length - 1 = ys.length := by simp
    rw [hl1] at ih
    have hl : (x :: y :: ys).length - 1 = ys.length + 1 := by simp
    rw [hl, List.drop_succ_cons]
    exact ih

theorem applyLim_one {l : List Event} {w : Event} (h : l.getLast? = some w) :
    applyLim (some 1) l = [w] := by
  unfold applyLim
  exact drop_length_sub_one h

theorem findB_some_id {s : Store} {bucket_id : String} {sb : StoreBucket}
    (h : findB s bucket_id = some sb) : sb.bucket.id = bucket_id := by
  induction s with
  | nil => simp [findB] at h
  | cons x xs ih =>
    unfold findB at h
    by_cases hx : x.bucket.id = bucket_id
    · rw [if_pos hx] at h
      cases h
      exact hx
    · rw [if_neg hx] at h
      exact ih h

theorem findB_append_of_none {s : Store} {bucket_id : String}
    (h : findB s bucket_id = none) (t : Store) :
    findB (s ++ t) bucket_id = findB t bucket_id := by
  induction s with
  | nil => rfl
  | cons x xs ih =>
    unfold findB at h
    by_cases hx : x.bucket.id = bucket_id
    · rw [if_pos hx] at h
      cases h
    · rw [if_neg hx] at h
      show (if x.bucket.id = bucket_id then some x else findB (xs ++ t) bucket_id) = _
      rw [if_neg hx, ih h]

theorem findB_append_of_some {s : Store} {bucket_id : String} {sb : StoreBucket}
    (h : findB s bucket_id = some sb) (t : Store) :
    findB (s ++ t) bucket_id = some sb := by
  induction s with
  | nil => simp [findB] at h
  | cons x xs ih =>
    unfold findB at h
    by_cases hx : x.bucket.id = bucket_id
    · rw [if_pos hx] at h
      show (if x.bucket.id = bucket_id then some x else findB (xs ++ t) bucket_id) = _
      rw [if_pos hx]
      exact h
    · rw [if_neg hx] at h
      show (if x.bucket.id = bucket_id then some x else findB (xs ++ t) bucket_id) = _
      rw [if_neg hx, ih h]

theorem updateB_of_none {s : Store} {bucket_id : String} {f : List Event → List Event}
    (h : findB s bucket_id = none) : updateB s bucket_id f = s := by
  induction s with
  | nil => rfl
  | cons x xs ih =>
    unfold findB at h
    unfold updateB
    by_cases hx : x.bucket.id = bucket_id
    · rw [if_pos hx] at h
      cases h
    · rw [if_neg hx] at h
      rw [if_neg hx, ih h]

theorem updateB_append_of_none {s : Store} {bucket_id : String}
    (h : findB s bucket_id = none) (t : Store) (f : List Event → List Event) :
    updateB (s ++ t) bucket_id f = s ++ updateB t bucket_id f := by
  induction s with
  | nil => rfl
  | cons x xs ih =>
    unfold findB at h
    by_cases hx : x.bucket.id = bucket_id
    · rw [if_pos hx] at h
      cases h
    · rw [if_neg hx] at h
      simp only [List.cons_append, updateB, if_neg hx]
      exact congrArg (fun l => x :: l) (ih h)

theorem findB_updateB_self {s : Store} {bucket_id : String} {sb : StoreBucket}
    (h : findB s bucket_id = some sb) (f : List Event → List Event) :
    findB (updateB s bucket_id f) bucket_id = some { sb with events := f sb.events } := by
  induction s with
  | nil => simp [findB] at h
  | cons x xs ih =>
    unfold findB at h
    unfold updateB
    by_cases hx : x.bucket.id = bucket_id
    · rw [if_pos hx] at h
      cases h
      simp [findB, hx]
    · rw [if_neg hx] at h
      simp only [if_neg hx, findB, if_neg hx]
      exact ih h

theorem findB_updateB_other {s : Store} {bucket_id other_id : String}
    (hne : other_id ≠ bucket_id) (f : List Event → List Event) :
    findB (updateB s bucket_id f) other_id = findB s other_id := by
  induction s with
  | nil => rfl
  | cons x xs ih =>
    unfold updateB
    by_cases hx : x.bucket.id = bucket_id
    · rw [if_pos hx]
      unfold findB
      have : x.bucket.id ≠ other_id := by
        rw [hx]
        exact fun hc => hne hc.symm
      rw [if_neg this, if_neg this]
    · rw [if_neg hx]
      unfold findB
      by_cases hy : x.bucket.id = other_id
      · rw [if_pos hy, if_pos hy]
      · rw [if_neg hy, if_neg hy, ih]

theorem updateB_updateB (s : Store) (bucket_id : String)
    (f g : List Event → List Event) :
    updateB (updateB s bucket_id f) bucket_id g = updateB s bucket_id (fun l => g (f l)) := by
  induction s with
  | nil => rfl
  | cons x xs ih =>
    unfold updateB
    by_cases hx : x.bucket.id = bucket_id
    · simp only [if_pos hx, updateB, if_pos hx]
    · simp only [if_neg hx, updateB, if_neg hx, ih]

theorem updateB_eq_self {s : Store} {bucket_id : String} {sb : StoreBucket}
    {f : List Event → List Event} (h : findB s bucket_id = some sb)
    (hf : f sb.events = sb.events) : updateB s bucket_id f = s := by
  induction s with
  | nil => simp [findB] at h
  | cons x xs ih =>
    unfold findB at h
    unfold updateB
    by_cases hx : x.bucket.id = bucket_id
    · rw [if_pos hx] at h
      cases h
      rw [if_pos hx, hf]
    · rw [if_neg hx] at h
      rw [if_neg hx, ih h]

theorem lookupKV_insertKV_self (m : List (String × JVal)) (k : String) (v : JVal) :
    lookupKV (insertKV m k v) k = some v := by
  induction m with
  | nil => simp [insertKV, lookupKV]
  | cons x xs ih =>
    obtain ⟨k0, v0⟩ := x
    unfold insertKV
    by_cases hk : k0 = k
    · rw [if_pos hk]
      simp [lookupKV]
    · rw [if_neg hk]
      unfold lookupKV
      rw [if_neg hk]
      exact ih

theorem lookupKV_insertKV_other (m : List (String × JVal)) {k k2 : String} (v : JVal)
    (h : k ≠ k2) : lookupKV (insertKV m k v) k2 = lookupKV m k2 := by
  induction m with
  | nil => simp [insertKV, lookupKV, h]
  | cons x xs ih =>
    obtain ⟨k0, v0⟩ := x
    unfold insertKV
    by_cases hk : k0 = k
    · rw [if_pos hk]
      unfold lookupKV
      rw [if_neg h, if_neg (hk ▸ h : k0 ≠ k2)]
    · rw [if_neg hk]
      unfold lookupKV
      by_cases h2 : k0 = k2
      · rw [if_pos h2, if_pos h2]
      · rw [if_neg h2, if_neg h2]
        exact ih

theorem mkSyncBucket_id (b : Bucket) : (mkSyncBucket b).id = newSyncId b := rfl

theorem hbStep_empty (pulsetime : Int) (l : List Event) (e : Event)
    (h : l.getLast? = none) : hbStep pulsetime l e = (e, [e]) := by
  unfold hbStep
  rw [h]

theorem hbStep_merge {pulsetime : Int} {l : List Event} {e last : Event}
    (h : l.getLast? = some last)
    (hgap : -pulsetime ≤ e.timestamp - last.endTime ∧
      e.timestamp - last.endTime ≤ pulsetime) :
    hbStep pulsetime l e = (mergedEvent last e, l.dropLast ++ [mergedEvent last e]) := by
  unfold hbStep
  rw [h]
  exact if_pos hgap

theorem hbStep_insert {pulsetime : Int} {l : List Event} {e last : Event}
    (h : l.getLast? = some last)
    (hgap : ¬(-pulsetime ≤ e.timestamp - last.endTime ∧
      e.timestamp - last.endTime ≤ pulsetime)) :
    hbStep pulsetime l e = (e, l ++ [e]) := by
  unfold hbStep
  rw [h]
  exact if_neg hgap

theorem gocb_found {b : Bucket} {s : Store} {sb : StoreBucket}
    (h : findB s (newSyncId b) = some sb) :
    get_or_create_sync_bucket storeM b s = .ok (sb.bucket, s) := by
  simp only [get_or_create_sync_bucket, storeM, h]

theorem gocb_create {b : Bucket} {s : Store}
    (h : findB s (newSyncId b) = none) :
    get_or_create_sync_bucket storeM b s =
      .ok (mkSyncBucket b, s ++ [⟨mkSyncBucket b, []⟩]) := by
  have hfind : findB (s ++ [⟨mkSyncBucket b, []⟩]) (newSyncId b) =
      some ⟨mkSyncBucket b, []⟩ := by
    rw [findB_append_of_none h]
    unfold findB
    rw [if_pos (mkSyncBucket_id b)]
  simp only [get_or_create_sync_bucket, storeM, h, mkSyncBucket_id, hfind]

/-!
Concrete fixtures used by counterexamples and witnesses.
-/

/-- A plain source bucket. -/
def bSrc1 : Bucket := ⟨"b1", "test", "host1", "client1", []⟩

/-- A second plain source bucket. -/
def bSrc2 : Bucket := ⟨"b2", "test", "host1", "client1", []⟩

/-- A destination port simulating a creation race: the bucket is absent on
`get_bucket`, yet `create_bucket` reports `BucketAlreadyExists` because a
concurrent writer created the id in between. -/
def racyDst : AccessMethod Unit where
  get_buckets s := .ok ([], s)
  get_bucket _ _ := .error .NoSuchBucket
  create_bucket _ _ := .error .BucketAlreadyExists
  get_events s _ _ _ _ := .ok ([], s)
  insert_events s _ _ := .ok s
  get_event_count s _ _ _ := .ok (0, s)
  heartbeat s _ e _ := .ok (e, s)

/-- A source port enumerating buckets `b1` and `b2` whose event fetch fails
with a backend error on `b1` only. -/
def faultySrc : AccessMethod Unit where
  get_buckets s := .ok ([bSrc1, bSrc2], s)
  get_bucket _ _ := .error .NoSuchBucket
  create_bucket s _ := .ok s
  get_events s bucket_id _ _ _ :=
    if bucket_id = "b1" then .error "simulated backend failure" else .ok ([], s)
  insert_events s _ _ := .ok s
  get_event_count s _ _ _ := .ok (0, s)
  heartbeat s _ e _ := .ok (e, s)

/-- The same faulty source port restricted to enumerating only `b2`. -/
def faultySrcOnlyB2 : AccessMethod Unit where
  get_buckets s := .ok ([bSrc2], s)
  get_bucket _ _ := .error .NoSuchBucket
  create_bucket s _ := .ok s
  get_events s bucket_id _ _ _ :=
    if bucket_id = "b1" then .error "simulated backend failure" else .ok ([], s)
  insert_events s _ _ := .ok s
  get_event_count s _ _ _ := .ok (0, s)
  heartbeat s _ e _ := .ok (e, s)

/-!
Claim C9 — error handling of `BucketAlreadyExists` during creation.

The source `get_or_create_sync_bucket` calls
`ds_to.create_bucket(&bucket_new).unwrap()` (sync.rs line 264): an
`Err(BucketAlreadyExists)` makes the `unwrap()` panic, so a creation race is
not treated as success.
-/

/-- C9 counterexample: on a destination port where `get_bucket` reports the
bucket absent and `create_bucket` then reports `BucketAlreadyExists` (a
creation race), the engine does not proceed with the existing bucket: the
mapper panics, refuting the claim that the race is treated as success. -/
theorem C9_counterexample :
    get_or_create_sync_bucket racyDst bSrc1 () =
      .error "panicked at unwrap: BucketAlreadyExists" := by
  rfl

/-- C9 (amended): if, during destination bucket creation, `create_bucket`
fails with `BucketAlreadyExists`, `get_or_create_sync_bucket` panics
(aborting the bucket's sync and with it the pass); it does not fall back to
the existing bucket. -/
theorem C9_amended_create_race_panics {σ : Type} (m : AccessMethod σ) (b : Bucket) (s : σ)
    (h1 : m.get_bucket s (newSyncId b) = .error .NoSuchBucket)
    (h2 : m.create_bucket s (mkSyncBucket b) = .error .BucketAlreadyExists) :
    get_or_create_sync_bucket m b s =
      .error "panicked at unwrap: BucketAlreadyExists" := by
  simp only [get_or_create_sync_bucket, h1, h2]
  rfl

/-- C9 witness: the amended behaviour realized on the racy destination port. -/
theorem C9_witness :
    get_or_create_sync_bucket racyDst bSrc2 () =
      .error "panicked at unwrap: BucketAlreadyExists" :=
  C9_amended_create_race_panics racyDst bSrc2 () rfl rfl

/-!
Claim C1 — propagation of per-bucket failures across the pass.

Every step of the source pass uses `.unwrap()`, so the first failing bucket
panics the whole `sync_datastores` call; the remaining buckets of the pass
are never processed.
-/

/-- C1 counterexample: source enumerates `b1` then `b2`; the event fetch for
`b1` fails.  The pass panics; `b1`'s mirror had already been created in the
destination, but `b2` is never processed (no mirror, no delta), refuting the
claim that remaining buckets continue.  The final conjunct shows the same
destination and port do sync `b2` fine when `b1` does not abort the pass
first. -/
theorem C1_counterexample :
    (sync_datastores faultySrc storeM () ([] : Store)).panicMsg =
        some "panicked at unwrap: simulated backend failure" ∧
    (findB (sync_datastores faultySrc storeM () ([] : Store)).dst
        (newSyncId bSrc1)).isSome = true ∧
    findB (sync_datastores faultySrc storeM () ([] : Store)).dst
        (newSyncId bSrc2) = none ∧
    (sync_datastores faultySrc storeM () ([] : Store)).deltas = [] ∧
    (sync_datastores faultySrcOnlyB2 storeM () ([] : Store)).panicMsg = none ∧
    (findB (sync_datastores faultySrcOnlyB2 storeM () ([] : Store)).dst
        (newSyncId bSrc2)).isSome = true := by
  decide

/-- C1 (amended): a failure on one bucket aborts the entire pass at that
point: `syncBuckets` stops with the panic message, reports no further
deltas, and the buckets after the failing one (quantified `rest`) are never
touched — the outcome is independent of `rest`. -/
theorem C1_amended_panic_aborts_pass {σf σt : Type} (mf : AccessMethod σf)
    (mt : AccessMethod σt) (b : Bucket) (rest : List Bucket) (sf : σf) (st : σt)
    (e : String) (h : (sync_bucket mf mt b sf st).res = .error e) :
    syncBuckets mf mt (b :: rest) sf st =
      ⟨(sync_bucket mf mt b sf st).sf, (sync_bucket mf mt b sf st).st, [], some e⟩ := by
  simp only [syncBuckets, h]

/-- C1 witness: the amended abort behaviour realized on the faulty source
port, with a nonempty remainder after the failing bucket. -/
theorem C1_witness :
    syncBuckets faultySrc storeM [bSrc1, bSrc2] ()
        ([] : Store) =
      ⟨(sync_bucket faultySrc storeM bSrc1 () ([] : Store)).sf,
        (sync_bucket faultySrc storeM bSrc1 () ([] : Store)).st, [],
        some "panicked at unwrap: simulated backend failure"⟩ :=
  C1_amended_panic_aborts_pass faultySrc storeM bSrc1 [bSrc2] () ([] : Store)
    "panicked at unwrap: simulated backend failure" (by rfl)

/-!
Claim C4 — resolve-or-create behaviour of the identity mapper over the
modelled destination store.
-/

/-- C4: over the modelled destination store, `get_or_create_sync_bucket`
returns the destination bucket unchanged when it exists under the derived
id, and otherwise creates a copy of the source bucket carrying the derived
id and the provenance metadata `sync.origin` (source hostname) and
`sync.id` (source id), re-fetches it, and returns it. -/
theorem C4_resolve_found_or_create (b : Bucket) (s : Store) :
    (∀ sb : StoreBucket, findB s (newSyncId b) = some sb →
      get_or_create_sync_bucket storeM b s = .ok (sb.bucket, s)) ∧
    (findB s (newSyncId b) = none →
      get_or_create_sync_bucket storeM b s =
        .ok (mkSyncBucket b, s ++ [⟨mkSyncBucket b, []⟩]) ∧
      (mkSyncBucket b).id = newSyncId b ∧
      (mkSyncBucket b).btype = b.btype ∧
      (mkSyncBucket b).hostname = b.hostname ∧
      (mkSyncBucket b).client = b.client ∧
      lookupKV (mkSyncBucket b).data "sync.origin" = some (JVal.str b.hostname) ∧
      lookupKV (mkSyncBucket b).data "sync.id" = some (JVal.str b.id)) := by
  constructor
  · exact fun sb h => gocb_found h
  · intro h
    refine ⟨gocb_create h, rfl, rfl, rfl, rfl, ?_, ?_⟩
    · unfold mkSyncBucket
      rw [lookupKV_insertKV_other _ _ (by decide), lookupKV_insertKV_self]
    · unfold mkSyncBucket
      rw [lookupKV_insertKV_self]

/-- C4 witness: both branches realized on concrete stores — creation into an
empty destination, then idempotent re-resolution of the created mirror. -/
theorem C4_witness :
    get_or_create_sync_bucket storeM bSrc1 ([] : Store) =
      .ok (mkSyncBucket bSrc1, ([⟨mkSyncBucket bSrc1, []⟩] : Store)) ∧
    get_or_create_sync_bucket storeM bSrc1 ([⟨mkSyncBucket bSrc1, []⟩] : Store) =
      .ok (mkSyncBucket bSrc1, ([⟨mkSyncBucket bSrc1, []⟩] : Store)) :=
  ⟨((C4_resolve_found_or_create bSrc1 []).2 rfl).1,
    (C4_resolve_found_or_create bSrc1 [⟨mkSyncBucket bSrc1, []⟩]).1
      ⟨mkSyncBucket bSrc1, []⟩ (by decide)⟩

/-!
Claim C5 — resume-point computation and the inclusive lower bound of the
source fetch.
-/

theorem sortByTs_eq_nil_iff {l : List Event} : sortByTs l = [] ↔ l = [] := by
  constructor
  · intro h
    have := length_sortByTs l
    rw [h] at this
    exact List.length_eq_zero.mp this.symm
  · intro h
    subst h
    rfl

/-- Demo mirror-store fixture: bucket `b1` holding one event `[10, 15)`. -/
def demoSB : StoreBucket := ⟨bSrc1, [⟨none, 10, 5, []⟩]⟩

/-- Demo mirror store containing only `demoSB`. -/
def demoStore : Store := [demoSB]

/-- C5: over the modelled destination store, the limit-1 fetch feeding the
resume point returns the tail of the ascending event sequence, the resume
point is `none` exactly when the destination bucket holds no events and is
otherwise `timestamp + duration` of the single most recent event; and every
event a modelled source returns for a fetch with inclusive start `T` has
`timestamp ≥ T`, so the pass never requests source events before `T`. -/
theorem C5_resume_point (s : Store) (bucket_id : String) (sb : StoreBucket)
    (h : findB s bucket_id = some sb) :
    storeM.get_events s bucket_id none none (some 1) =
      .ok (applyLim (some 1) (sortByTs sb.events), s) ∧
    (resumeOf (applyLim (some 1) (sortByTs sb.events)) = none ↔ sb.events = []) ∧
    (∀ w, (sortByTs sb.events).getLast? = some w →
      resumeOf (applyLim (some 1) (sortByTs sb.events)) = some (w.timestamp + w.duration)) ∧
    (∀ (src : Store) (bid : String) (T : Int) (evs : List Event) (s2 : Store),
      storeM.get_events src bid (some T) none none = .ok (evs, s2) →
      ∀ e ∈ evs, T ≤ e.timestamp) := by
  refine ⟨?_, ?_, ?_, ?_⟩
  · simp only [storeM, h, applyRange_none_none]
  · by_cases hnil : sb.events = []
    · rw [hnil]
      simp [applyLim, resumeOf, sortByTs]
    · have hne : sortByTs sb.events ≠ [] := fun hh => hnil (sortByTs_eq_nil_iff.mp hh)
      obtain ⟨w, hw⟩ := Option.isSome_iff_exists.mp (List.getLast?_isSome.mpr hne)
      rw [applyLim_one hw]
      simp [resumeOf, hnil]
  · intro w hw
    rw [applyLim_one hw]
    rfl
  · intro src bid T evs s2 hok e he
    revert hok
    simp only [storeM]
    cases hf : findB src bid with
    | none => intro hok; cases hok
    | some sb2 =>
      intro hok
      cases hok
      simp only [applyLim, applyRange, List.mem_filter] at he
      have := he.2
      simp only [Bool.and_eq_true, decide_eq_true_eq] at this
      exact this.1

/-- C5 witness: the resume computation evaluated on a concrete store whose
bucket `b1` holds the single event `[10, 15)`, and the lower-bound fact for
a concrete fetch starting at `T = 10`. -/
theorem C5_witness :
    storeM.get_events demoStore "b1" none none (some 1) =
      .ok (applyLim (some 1) (sortByTs demoSB.events), demoStore) ∧
    (resumeOf (applyLim (some 1) (sortByTs demoSB.events)) = none ↔ demoSB.events = []) ∧
    resumeOf (applyLim (some 1) (sortByTs demoSB.events)) = some 15 ∧
    (10 : Int) ≤ (10 : Int) :=
  ⟨(C5_resume_point demoStore "b1" demoSB rfl).1,
    (C5_resume_point demoStore "b1" demoSB rfl).2.1,
    (C5_resume_point demoStore "b1" demoSB rfl).2.2.1 ⟨none, 10, 5, []⟩ (by decide),
    (C5_resume_point demoStore "b1" demoSB rfl).2.2.2 demoStore "b1" 10
      [⟨none, 10, 5, []⟩] demoStore (by rfl) ⟨none, 10, 5, []⟩ (by decide)⟩

/-!
Claim C6 — store-local ids are cleared before every destination write.
-/

theorem mem_of_getLast?_ev {l : List Event} {w : Event} (h : l.getLast? = some w) :
    w ∈ l := by
  obtain ⟨hne, rfl⟩ := List.mem_getLast?_eq_getLast h
  exact List.getLast_mem hne

/-- Invariant: every event of every bucket of the store has no store-local id. -/
def AllIdsNone (s : Store) : Prop := ∀ sb ∈ s, ∀ e ∈ sb.events, e.id = none

theorem commitList_ids_none (evs : List Event) : ∀ e ∈ commitList evs, e.id = none := by
  intro e he
  rw [commitList, mem_sortByTs] at he
  obtain ⟨x, _, rfl⟩ := List.mem_map.mp he
  rfl

theorem hbStep_ids_none {pulsetime : Int} {l : List Event} {e : Event}
    (hl : ∀ x ∈ l, x.id = none) (he : e.id = none) :
    ∀ x ∈ (hbStep pulsetime l e).2, x.id = none := by
  intro x hx
  cases hlast : l.getLast? with
  | none =>
    rw [hbStep_empty pulsetime l e hlast] at hx
    simp only [List.mem_singleton] at hx
    subst hx
    exact he
  | some last =>
    by_cases hgap : -pulsetime ≤ e.timestamp - last.endTime ∧
        e.timestamp - last.endTime ≤ pulsetime
    · rw [hbStep_merge hlast hgap] at hx
      rcases List.mem_append.mp hx with hx | hx
      · exact hl x (List.mem_of_mem_dropLast hx)
      · simp only [List.mem_singleton] at hx
        subst hx
        exact hl last (mem_of_getLast?_ev hlast)
    · rw [hbStep_insert hlast hgap] at hx
      rcases List.mem_append.mp hx with hx | hx
      · exact hl x hx
      · simp only [List.mem_singleton] at hx
        subst hx
        exact he

theorem AllIdsNone_updateB {s : Store} {bucket_id : String} {f : List Event → List Event}
    (hs : AllIdsNone s)
    (hf : ∀ l, (∀ e ∈ l, e.id = none) → ∀ e ∈ f l, e.id = none) :
    AllIdsNone (updateB s bucket_id f) := by
  induction s with
  | nil => exact hs
  | cons x xs ih =>
    unfold updateB
    by_cases hx : x.bucket.id = bucket_id
    · rw [if_pos hx]
      intro sb hsb
      rcases List.mem_cons.mp hsb with rfl | hsb
      · exact hf x.events (hs x (by simp))
      · exact hs sb (by simp [hsb])
    · rw [if_neg hx]
      intro sb hsb
      rcases List.mem_cons.mp hsb with rfl | hsb
      · exact hs sb (by simp)
      · exact ih (fun sb2 hsb2 => hs sb2 (by simp [hsb2])) sb hsb

theorem storeM_heartbeat_allnone {s : Store} {bucket_id : String} {e : Event}
    {pulsetime : Int} {ev : Event} {s2 : Store}
    (h : storeM.heartbeat s bucket_id e pulsetime = .ok (ev, s2))
    (hs : AllIdsNone s) (he : e.id = none) : AllIdsNone s2 := by
  revert h
  simp only [storeM]
  cases hf : findB s bucket_id with
  | none => intro h; cases h
  | some sb =>
    intro h
    cases h
    exact AllIdsNone_updateB hs (fun l hl => hbStep_ids_none hl he)

theorem hbLoop_allnone :
    ∀ (evs : List Event) (s : Store) (bucket_id : String), AllIdsNone s →
      (∀ e ∈ evs, e.id = none) → AllIdsNone (hbLoop storeM bucket_id s evs).1 := by
  intro evs
  induction evs with
  | nil => exact fun s _ hs _ => hs
  | cons e rest ih =>
    intro s bucket_id hs he
    unfold hbLoop
    cases hh : storeM.heartbeat s bucket_id e 0 with
    | error err => exact hs
    | ok p =>
      obtain ⟨ev, s1⟩ := p
      exact ih s1 bucket_id (storeM_heartbeat_allnone hh hs (he e (by simp)))
        (fun x hx => he x (by simp [hx]))

theorem get_or_create_allnone {b : Bucket} {s : Store} (hs : AllIdsNone s)
    {bkt : Bucket} {s2 : Store}
    (h : get_or_create_sync_bucket storeM b s = .ok (bkt, s2)) : AllIdsNone s2 := by
  cases hf : findB s (newSyncId b) with
  | some sb =>
    rw [gocb_found hf] at h
    cases h
    exact hs
  | none =>
    rw [gocb_create hf] at h
    cases h
    intro sb hsb
    rcases List.mem_append.mp hsb with hsb | hsb
    · exact hs sb hsb
    · simp only [List.mem_singleton] at hsb
      subst hsb
      intro e he
      cases he

theorem storeM_get_event_count_state {s : Store} {bucket_id : String}
    {a b : Option Int} {n : Int} {s2 : Store}
    (h : storeM.get_event_count s bucket_id a b = .ok (n, s2)) : s2 = s := by
  revert h
  simp only [storeM]
  cases findB s bucket_id with
  | none => intro h; cases h
  | some sb => intro h; cases h; rfl

theorem storeM_get_events_state {s : Store} {bucket_id : String}
    {a b : Option Int} {c : Option Nat} {evs : List Event} {s2 : Store}
    (h : storeM.get_events s bucket_id a b c = .ok (evs, s2)) : s2 = s := by
  revert h
  simp only [storeM]
  cases findB s bucket_id with
  | none => intro h; cases h
  | some sb => intro h; cases h; rfl

theorem sync_bucket_allnone (b : Bucket) (sf st : Store) (hs : AllIdsNone st) :
    AllIdsNone (sync_bucket storeM storeM b sf st).st := by
  unfold sync_bucket
  cases h1 : get_or_create_sync_bucket storeM b st with
  | error e => exact hs
  | ok p =>
    obtain ⟨bkt, st1⟩ := p
    have hst1 : AllIdsNone st1 := get_or_create_allnone hs h1
    dsimp only
    cases h2 : storeM.get_event_count st1 bkt.id none none with
    | error e => exact hst1
    | ok q =>
      obtain ⟨n, st2⟩ := q
      have hst2 : AllIdsNone st2 := (storeM_get_event_count_state h2) ▸ hst1
      dsimp only
      cases h3 : storeM.get_events st2 bkt.id none none (some 1) with
      | error e => exact hst2
      | ok r =>
        obtain ⟨most, st3⟩ := r
        have hst3 : AllIdsNone st3 := (storeM_get_events_state h3) ▸ hst2
        dsimp only
        cases h4 : storeM.get_events sf b.id (resumeOf most) none none with
        | error e => exact hst3
        | ok u =>
          obtain ⟨evs, sf1⟩ := u
          have hloop : AllIdsNone (hbLoop storeM bkt.id st3 (commitList evs)).1 :=
            hbLoop_allnone (commitList evs) st3 bkt.id hst3 (commitList_ids_none evs)
          dsimp only
          cases h5 : hbLoop storeM bkt.id st3 (commitList evs) with
          | mk st4 panicked =>
            have hst4 : AllIdsNone st4 := by
              have := hloop
              rw [h5] at this
              exact this
            cases panicked with
            | some e => exact hst4
            | none =>
              dsimp only
              cases h6 : storeM.get_event_count st4 bkt.id none none with
              | error e => exact hst4
              | ok v =>
                obtain ⟨n2, st5⟩ := v
                exact (storeM_get_event_count_state h6) ▸ hst4

theorem syncBuckets_allnone :
    ∀ (bs : List Bucket) (sf st : Store), AllIdsNone st →
      AllIdsNone (syncBuckets storeM storeM bs sf st).dst := by
  intro bs
  induction bs with
  | nil => exact fun sf st hs => hs
  | cons b rest ih =>
    intro sf st hs
    unfold syncBuckets
    dsimp only
    cases hr : (sync_bucket storeM storeM b sf st).res with
    | error e =>
      have := sync_bucket_allnone b sf st hs
      exact this
    | ok d =>
      exact ih _ _ (sync_bucket_allnone b sf st hs)

/-- C6: every event the pass submits to the destination has its store-local
id cleared (`commitList` produces only id-free copies), and consequently a
destination store in which every event is id-free — in particular one whose
mirror buckets were created by the engine itself — still contains only
id-free events after any pass: no destination event carries the id it had
in the source store. -/
theorem C6_id_stripping :
    (∀ (evs : List Event), ∀ e ∈ commitList evs, e.id = none) ∧
    (∀ (sf st : Store), AllIdsNone st →
      AllIdsNone (sync_datastores storeM storeM sf st).dst) := by
  constructor
  · exact commitList_ids_none
  · intro sf st hs
    unfold sync_datastores
    cases storeM.get_buckets sf with
    | error e => exact hs
    | ok p => exact syncBuckets_allnone p.1 p.2 st hs

/-- C6 witness: a concrete event with a source id is committed id-free, and
a pass over concrete stores preserves the id-free destination invariant. -/
theorem C6_witness :
    (Event.mk none 3 1 [] : Event).id = none ∧
    AllIdsNone (sync_datastores storeM storeM
      [⟨bSrc1, [⟨some 7, 3, 1, []⟩]⟩] ([] : Store)).dst :=
  ⟨C6_id_stripping.1 [⟨some 7, 3, 1, []⟩] ⟨none, 3, 1, []⟩ (by decide),
    C6_id_stripping.2 [⟨bSrc1, [⟨some 7, 3, 1, []⟩]⟩] [] (by intro sb hsb; cases hsb)⟩

/-!
String-scanning infrastructure for the identity-mapper claims.
-/

theorem isPrefixOfIff {l1 l2 : List Char} : l1.isPrefixOf l2 = true ↔ l1 <+: l2 := by
  exact List.isPrefixOf_iff_prefix

theorem append_eq_append_of_le {α : Type} :
    ∀ {p u : List α} {t v : List α}, p ++ t = u ++ v → p.length ≤ u.length →
      ∃ w, u = p ++ w ∧ t = w ++ v := by
  intro p
  induction p with
  | nil => exact fun h _ => ⟨_, rfl, h⟩
  | cons x p2 ih =>
    intro u t v h hle
    cases u with
    | nil => simp at hle
    | cons y u2 =>
      simp only [List.cons_append, List.cons.injEq] at h
      obtain ⟨rfl, h2⟩ := h
      obtain ⟨w, hw1, hw2⟩ := ih h2 (by simpa using hle)
      exact ⟨w, by rw [List.cons_append, hw1], hw2⟩

theorem prefix_append_cases {α : Type} {p t r : List α} (h : p <+: t ++ r) :
    (p <+: t) ∨
    (t.length < p.length ∧ t = p.take t.length ∧ p.drop t.length <+: r) := by
  obtain ⟨z, hz⟩ := h
  by_cases hle : p.length ≤ t.length
  · obtain ⟨w, hw1, _⟩ := append_eq_append_of_le hz hle
    exact Or.inl ⟨w, hw1.symm⟩
  · push_neg at hle
    obtain ⟨w, hw1, hw2⟩ := append_eq_append_of_le hz.symm (le_of_lt hle)
    refine Or.inr ⟨hle, ?_, ?_⟩
    · rw [hw1, List.take_left]
    · rw [hw1, List.drop_left]
      exact ⟨z, hw2.symm⟩

theorem suffix_append_cases {α : Type} {t a b : List α} (h : t <:+ a ++ b) :
    t <:+ b ∨ (t ≠ [] ∧ ∃ a2, a2 ≠ [] ∧ a2 <:+ a ∧ t = a2 ++ b) := by
  obtain ⟨u, hu⟩ := h
  by_cases hle : a.length ≤ u.length
  · obtain ⟨w, hw1, hw2⟩ := append_eq_append_of_le hu.symm hle
    exact Or.inl ⟨w, hw2.symm⟩
  · push_neg at hle
    obtain ⟨w, hw1, hw2⟩ := append_eq_append_of_le hu (le_of_lt hle)
    have hwne : w ≠ [] := by
      intro hwe
      rw [hwe, List.append_nil] at hw1
      rw [hw1] at hle
      exact lt_irrefl _ hle
    refine Or.inr ⟨?_, w, hwne, ⟨u, hw1.symm⟩, hw2⟩
    rw [hw2]
    intro hte
    exact hwne (List.append_eq_nil.mp hte).1

/-- No occurrence of `pat` anywhere in `l`: no suffix of `l` starts with
`pat`. -/
def NoOcc (pat l : List Char) : Prop := ∀ t, t <:+ l → ¬ pat <+: t

/-- Boolean occurrence scan used to state hypotheses decidably. -/
def hasOcc (pat : List Char) : List Char → Bool
  | [] => false
  | c :: rest => pat.isPrefixOf (c :: rest) || hasOcc pat rest

theorem noOcc_of_hasOcc_false {pat l : List Char} (hpat : pat ≠ [])
    (h : hasOcc pat l = false) : NoOcc pat l := by
  induction l with
  | nil =>
    intro t ht hp
    rw [List.suffix_nil.mp ht] at hp
    exact hpat (List.prefix_nil.mp hp)
  | cons c rest ih =>
    intro t ht hp
    unfold hasOcc at h
    rw [Bool.or_eq_false_iff] at h
    rcases List.suffix_cons_iff.mp ht with rfl | ht2
    · exact absurd (isPrefixOfIff.mpr hp) (by simp [h.1])
    · exact ih h.2 t ht2 hp

theorem noOcc_mono {pat l t : List Char} (h : NoOcc pat l) (ht : t <:+ l) :
    NoOcc pat t := fun u hu => h u (hu.trans ht)

/-- Count of positions of `l` at which `pat` occurs (for nonempty `pat`). -/
def occAtCount (pat : List Char) : List Char → Nat
  | [] => 0
  | c :: rest => (if pat <+: c :: rest then 1 else 0) + occAtCount pat rest

theorem occAtCount_zero {pat l : List Char} (h : NoOcc pat l) :
    occAtCount pat l = 0 := by
  induction l with
  | nil => rfl
  | cons c rest ih =>
    unfold occAtCount
    rw [if_neg (h (c :: rest) (List.suffix_refl _)),
      ih (fun t ht => h t (ht.trans (List.suffix_cons c rest)))]

theorem occAtCount_append_zero {pat : List Char} (a : List Char) {b : List Char}
    (h : ∀ t, t ≠ [] → t <:+ a → ¬ pat <+: (t ++ b)) :
    occAtCount pat (a ++ b) = occAtCount pat b := by
  induction a with
  | nil => rfl
  | cons c a2 ih =>
    show (if pat <+: (c :: a2) ++ b then 1 else 0) + occAtCount pat (a2 ++ b) =
      occAtCount pat b
    rw [if_neg (h (c :: a2) (by simp) (List.suffix_refl _)),
      ih (fun t htn hts => h t htn (hts.trans (List.suffix_cons c a2))), Nat.zero_add]

/-- The literal `\x22-from-\x22` remaining after the leading `\x22-synced\x22` of the
mirror-id marker. -/
def fromL : List Char := "-from-".toList

/-- The mirror-id marker without its leading dash. -/
def sfTail : List Char := "synced-from-".toList

theorem syncedFromL_split : syncedFromL = syncedL ++ fromL := by decide

theorem syncedFromL_cons : syncedFromL = '-' :: sfTail := by decide

theorem stripSynced_cons_of_not {c : Char} {rest : List Char}
    (h : ¬ syncedL <+: (c :: rest)) :
    stripSynced (c :: rest) = c :: stripSynced rest := by
  apply stripSynced.eq_2
  intro r1 hc hr
  refine h ⟨r1, ?_⟩
  rw [syncedL_eq, hc, hr]
  rfl

theorem stripSynced_drop (l : List Char) : stripSynced (syncedL ++ l) = stripSynced l := by
  rw [syncedL_eq]
  rfl

theorem stripSynced_append (a rest : List Char)
    (h : ∀ t, t ≠ [] → t <:+ a → ¬ syncedL <+: (t ++ rest)) :
    stripSynced (a ++ rest) = a ++ stripSynced rest := by
  induction a with
  | nil => rfl
  | cons c a2 ih =>
    have hhead : ¬ syncedL <+: (c :: (a2 ++ rest)) :=
      h (c :: a2) (by simp) (List.suffix_refl _)
    rw [List.cons_append, stripSynced_cons_of_not hhead,
      ih (fun t htn hts => h t htn (hts.trans (List.suffix_cons c a2)))]
    rfl

theorem stripSynced_of_noOcc {l : List Char} (h : NoOcc syncedL l) :
    stripSynced l = l := by
  have h2 := stripSynced_append l []
    (fun t htn hts hp => h t hts (by rwa [List.append_nil] at hp))
  have h3 : stripSynced ([] : List Char) = [] := rfl
  rw [h3, List.append_nil] at h2
  exact h2

theorem synced_drop_not_prefix_dash {k : Nat} (hk1 : 0 < k) (hk7 : k < 7)
    (X : List Char) : ¬ syncedL.drop k <+: ('-' :: X) := by
  intro hp
  obtain ⟨z, hz⟩ := hp
  interval_cases k <;> (rw [syncedL_eq] at hz; simp at hz)

/-- Crossing a boundary into a region that starts with a dash never yields a
`\x22-synced\x22` occurrence that begins strictly inside the left part. -/
theorem no_cross_into_dash {a X : List Char} (ha : NoOcc syncedL a) :
    ∀ t, t ≠ [] → t <:+ a → ¬ syncedL <+: (t ++ ('-' :: X)) := by
  intro t htn hts hp
  rcases prefix_append_cases hp with hc | ⟨hlt, _, hdrop⟩
  · exact ha t hts hc
  · exact synced_drop_not_prefix_dash (List.length_pos.mpr htn)
      (by simpa [syncedL_eq] using hlt) X hdrop

/-- No `\x22-synced\x22` occurrence starts inside `\x22-from-\x22` when the following
part does not begin with `\x22synced\x22` and contains no occurrence itself. -/
theorem no_cross_fromL {h1 : List Char} (hh1p : ¬ "synced".toList <+: h1) :
    ∀ t, t ≠ [] → t <:+ fromL → ¬ syncedL <+: (t ++ h1) := by
  intro t htn hts hp
  rcases prefix_append_cases hp with hc | ⟨hlt, htake, hdrop⟩
  · have h7 : syncedL.length ≤ t.length := hc.length_le
    have h6 : t.length ≤ fromL.length := hts.length_le
    rw [syncedL_eq] at h7
    rw [show fromL.length = 6 by decide] at h6
    simp at h7
    omega
  · have hk1 : 0 < t.length := List.length_pos.mpr htn
    have hk7 : t.length < 7 := by simpa [syncedL_eq] using hlt
    have hcase : t.length = 1 ∨ t.length = 2 ∨ t.length = 3 ∨ t.length = 4 ∨
        t.length = 5 ∨ t.length = 6 := by omega
    rcases hcase with h | h | h | h | h | h
    · rw [h] at hdrop
      rw [show syncedL.drop 1 = "synced".toList from by decide] at hdrop
      exact hh1p hdrop
    · rw [h, show syncedL.take 2 = ['-', 's'] from by decide] at htake
      rw [htake] at hts
      exact absurd hts (by decide)
    · rw [h, show syncedL.take 3 = ['-', 's', 'y'] from by decide] at htake
      rw [htake] at hts
      exact absurd hts (by decide)
    · rw [h, show syncedL.take 4 = ['-', 's', 'y', 'n'] from by decide] at htake
      rw [htake] at hts
      exact absurd hts (by decide)
    · rw [h, show syncedL.take 5 = ['-', 's', 'y', 'n', 'c'] from by decide] at htake
      rw [htake] at hts
      exact absurd hts (by decide)
    · rw [h, show syncedL.take 6 = ['-', 's', 'y', 'n', 'c', 'e'] from by decide] at htake
      rw [htake] at hts
      exact absurd hts (by decide)

theorem noOcc_append {pat a b : List Char} (hb : NoOcc pat b)
    (h : ∀ t, t ≠ [] → t <:+ a → ¬ pat <+: (t ++ b)) : NoOcc pat (a ++ b) := by
  intro t ht hp
  rcases suffix_append_cases ht with ht2 | ⟨htn, a2, ha2n, ha2s, rfl⟩
  · exact hb t ht2 hp
  · exact h a2 ha2n ha2s hp

/-- Main computation of the identity mapper on a mirror id: stripping the
scan removes exactly the `\x22-synced\x22` inside the `\x22-synced-from-\x22` marker,
leaving `base ++ \x22-from-\x22 ++ host`. -/
theorem stripSynced_mirror (base h1 : List Char)
    (hbase : NoOcc syncedL base) (hh1 : NoOcc syncedL h1)
    (hh1p : ¬ "synced".toList <+: h1) :
    stripSynced (base ++ (syncedFromL ++ h1)) = base ++ (fromL ++ h1) := by
  have hsh : syncedFromL ++ h1 = syncedL ++ (fromL ++ h1) := by
    rw [syncedFromL_split, List.append_assoc]
  have hdash : syncedL ++ (fromL ++ h1) = '-' :: ("synced".toList ++ (fromL ++ h1)) := by
    rw [syncedL_eq]
    rfl
  rw [hsh]
  rw [stripSynced_append base _
    (fun t htn hts hp => no_cross_into_dash hbase t htn hts (by rwa [hdash] at hp))]
  rw [stripSynced_drop, stripSynced_append fromL h1 (no_cross_fromL hh1p),
    stripSynced_of_noOcc hh1]

/-- The stripped mirror prefix contains no `\x22-synced\x22` occurrence at all. -/
theorem noOcc_mirror {base h1 : List Char} (hbase : NoOcc syncedL base)
    (hh1 : NoOcc syncedL h1) (hh1p : ¬ "synced".toList <+: h1) :
    NoOcc syncedL (base ++ (fromL ++ h1)) := by
  have hfh : NoOcc syncedL (fromL ++ h1) := noOcc_append hh1 (no_cross_fromL hh1p)
  refine noOcc_append hfh ?_
  have hdash : fromL ++ h1 = '-' :: ("from-".toList ++ h1) := by
    rw [show fromL = '-' :: "from-".toList from by decide]
    rfl
  intro t htn hts hp
  rw [hdash] at hp
  exact no_cross_into_dash hbase t htn hts hp

theorem sfL_drop_not_prefix {k : Nat} (hk1 : 0 < k) (hk13 : k < 13) (hk12 : k ≠ 12)
    (X : List Char) : ¬ syncedFromL.drop k <+: (syncedFromL ++ X) := by
  intro hp
  obtain ⟨z, hz⟩ := hp
  have hsf : syncedFromL = ['-', 's', 'y', 'n', 'c', 'e', 'd', '-', 'f', 'r', 'o', 'm', '-'] := by
    decide
  interval_cases k <;>
    first
    | exact absurd rfl hk12
    | (rw [hsf] at hz; simp at hz)

theorem take_not_suffix_tail {k : Nat} (hk2 : 2 ≤ k) (hk12 : k ≤ 12) :
    ¬ syncedFromL.take k <:+ sfTail := by
  interval_cases k <;> decide

/-- No `\x22-synced-from-\x22` occurrence starts strictly inside a prefix that is
free of `\x22-synced\x22` occurrences. -/
theorem sfL_no_cross_P {P h2c : List Char} (hP : NoOcc syncedL P) :
    ∀ t, t ≠ [] → t <:+ P → ¬ syncedFromL <+: (t ++ (syncedFromL ++ h2c)) := by
  intro t htn hts hp
  rcases prefix_append_cases hp with hc | ⟨hlt, htake, hdrop⟩
  · exact hP t hts ((show syncedL <+: syncedFromL from by decide).trans hc)
  · have hk1 : 0 < t.length := List.length_pos.mpr htn
    have hk13 : t.length < 13 := by
      simpa [show syncedFromL.length = 13 from by decide] using hlt
    by_cases hk12 : t.length = 12
    · rw [hk12,
        show syncedFromL.take 12 = ['-', 's', 'y', 'n', 'c', 'e', 'd', '-', 'f', 'r', 'o', 'm']
          from by decide] at htake
      rw [htake] at hts
      exact hP _ hts (by decide)
    · exact sfL_drop_not_prefix hk1 hk13 hk12 h2c hdrop

/-- No `\x22-synced-from-\x22` occurrence starts strictly inside the marker's own
tail when the host part is clean. -/
theorem sfL_inside_tail {h2c : List Char} (hh2p : ¬ "synced".toList <+: h2c) :
    ∀ t, t ≠ [] → t <:+ sfTail → ¬ syncedFromL <+: (t ++ h2c) := by
  intro t htn hts hp
  rcases prefix_append_cases hp with hc | ⟨hlt, htake, hdrop⟩
  · have h13 : syncedFromL.length ≤ t.length := hc.length_le
    have h12 : t.length ≤ sfTail.length := hts.length_le
    rw [show syncedFromL.length = 13 from by decide] at h13
    rw [show sfTail.length = 12 from by decide] at h12
    omega
  · have hk1 : 0 < t.length := List.length_pos.mpr htn
    have hk13 : t.length < 13 := by
      simpa [show syncedFromL.length = 13 from by decide] using hlt
    by_cases hk1e : t.length = 1
    · rw [hk1e, show syncedFromL.drop 1 = "synced-from-".toList from by decide] at hdrop
      exact hh2p ((show "synced".toList <+: "synced-from-".toList from by decide).trans hdrop)
    · rw [htake] at hts
      exact take_not_suffix_tail (by omega) (by omega) hts

/-- Exact occurrence count of the mirror marker in a derived id: one. -/
theorem occAtCount_sfL (P h2c : List Char) (hP : NoOcc syncedL P)
    (hh2 : NoOcc syncedL h2c) (hh2p : ¬ "synced".toList <+: h2c) :
    occAtCount syncedFromL (P ++ (syncedFromL ++ h2c)) = 1 := by
  rw [occAtCount_append_zero P (sfL_no_cross_P hP)]
  have hshape : syncedFromL ++ h2c = '-' :: (sfTail ++ h2c) := by
    rw [syncedFromL_cons]
    rfl
  rw [hshape]
  show (if syncedFromL <+: '-' :: (sfTail ++ h2c) then 1 else 0) +
    occAtCount syncedFromL (sfTail ++ h2c) = 1
  rw [if_pos (by rw [← hshape]; exact ⟨h2c, rfl⟩)]
  rw [occAtCount_append_zero sfTail (sfL_inside_tail hh2p)]
  rw [occAtCount_zero
    (fun t ht hp => hh2 t ht ((show syncedL <+: syncedFromL from by decide).trans hp))]

theorem gocb_id {b : Bucket} {s : Store} {bkt : Bucket} {s2 : Store}
    (h : get_or_create_sync_bucket storeM b s = .ok (bkt, s2)) : bkt.id = newSyncId b := by
  cases hf : findB s (newSyncId b) with
  | some sb =>
    rw [gocb_found hf] at h
    cases h
    exact findB_some_id hf
  | none =>
    rw [gocb_create hf] at h
    cases h
    rfl

/-!
Claim C7 — the committed sequence is sorted ascending by timestamp, one
heartbeat (pulsetime 0) per fetched event.

The commit loop (`hbLoop`, sync.rs lines 313-315) submits `commitList evs`
to the destination one event at a time, in list order, with pulsetime 0 by
definition; this theorem shows that submitted sequence is non-decreasing in
timestamp and has exactly one entry per fetched event.
-/

/-- C7: for every fetched event list, the list the pass commits is sorted
non-decreasing by timestamp and contains exactly one entry per fetched
event. -/
theorem C7_commit_sorted (evs : List Event) :
    (commitList evs).Pairwise tsLe ∧ (commitList evs).length = evs.length := by
  constructor
  · exact sortByTs_sorted _
  · rw [commitList, length_sortByTs, List.length_map]

/-!
Claim C10 — a pass is read-only on the source store.

The source port is instrumented: `tracedM` wraps the modelled store with a
call log.  A pass over any stores leaves the source store untouched and its
log contains only `get_buckets` and `get_events` entries, so `sync_datastores`
never invokes `create_bucket`, `insert_events` or `heartbeat` on the source.
-/

/-- A store together with the log of port operations invoked on it. -/
abbrev TracedStore : Type := Store × List String

/-- Instrumented source port: each operation delegates to the modelled store
and appends its own name to the log. -/
def tracedM : AccessMethod TracedStore where
  get_buckets s :=
    match storeM.get_buckets s.1 with
    | .ok (bs, s1) => .ok (bs, (s1, s.2 ++ ["get_buckets"]))
    | .error e => .error e
  get_bucket s bucket_id :=
    match storeM.get_bucket s.1 bucket_id with
    | .ok (b, s1) => .ok (b, (s1, s.2 ++ ["get_bucket"]))
    | .error e => .error e
  create_bucket s bucket :=
    match storeM.create_bucket s.1 bucket with
    | .ok s1 => .ok (s1, s.2 ++ ["create_bucket"])
    | .error e => .error e
  get_events s bucket_id start stop limit :=
    match storeM.get_events s.1 bucket_id start stop limit with
    | .ok (evs, s1) => .ok (evs, (s1, s.2 ++ ["get_events"]))
    | .error e => .error e
  insert_events s bucket_id evs :=
    match storeM.insert_events s.1 bucket_id evs with
    | .ok s1 => .ok (s1, s.2 ++ ["insert_events"])
    | .error e => .error e
  get_event_count s bucket_id start stop :=
    match storeM.get_event_count s.1 bucket_id start stop with
    | .ok (n, s1) => .ok (n, (s1, s.2 ++ ["get_event_count"]))
    | .error e => .error e
  heartbeat s bucket_id e pulsetime :=
    match storeM.heartbeat s.1 bucket_id e pulsetime with
    | .ok (ev, s1) => .ok (ev, (s1, s.2 ++ ["heartbeat"]))
    | .error e => .error e

/-- A log that records only read operations on buckets and events. -/
def ReadOnlyLog (log : List String) : Prop :=
  ∀ c ∈ log, c = "get_buckets" ∨ c = "get_events"

theorem sync_bucket_traced_src (b : Bucket) (sf : TracedStore) (st : Store) :
    (sync_bucket tracedM storeM b sf st).sf.1 = sf.1 ∧
    ((sync_bucket tracedM storeM b sf st).sf.2 = sf.2 ∨
      (sync_bucket tracedM storeM b sf st).sf.2 = sf.2 ++ ["get_events"]) := by
  unfold sync_bucket
  cases h1 : get_or_create_sync_bucket storeM b st with
  | error e => exact ⟨rfl, Or.inl rfl⟩
  | ok p =>
    obtain ⟨bkt, st1⟩ := p
    dsimp only
    cases h2 : storeM.get_event_count st1 bkt.id none none with
    | error e => exact ⟨rfl, Or.inl rfl⟩
    | ok q =>
      obtain ⟨n, st2⟩ := q
      dsimp only
      cases h3 : storeM.get_events st2 bkt.id none none (some 1) with
      | error e => exact ⟨rfl, Or.inl rfl⟩
      | ok r =>
        obtain ⟨most, st3⟩ := r
        dsimp only
        cases h4 : tracedM.get_events sf b.id (resumeOf most) none none with
        | error e => exact ⟨rfl, Or.inl rfl⟩
        | ok u =>
          obtain ⟨evs, sf1⟩ := u
          have hsf1 : sf1.1 = sf.1 ∧ sf1.2 = sf.2 ++ ["get_events"] := by
            revert h4
            simp only [tracedM]
            cases hg : storeM.get_events sf.1 b.id (resumeOf most) none none with
            | error e => intro h4; cases h4
            | ok w =>
              intro h4
              cases h4
              exact ⟨storeM_get_events_state hg, rfl⟩
          dsimp only
          cases h5 : hbLoop storeM bkt.id st3 (commitList evs) with
          | mk st4 panicked =>
            cases panicked with
            | some e => exact ⟨hsf1.1, Or.inr hsf1.2⟩
            | none =>
              dsimp only
              cases h6 : storeM.get_event_count st4 bkt.id none none with
              | error e => exact ⟨hsf1.1, Or.inr hsf1.2⟩
              | ok v =>
                obtain ⟨n2, st5⟩ := v
                exact ⟨hsf1.1, Or.inr hsf1.2⟩

theorem syncBuckets_traced_src :
    ∀ (bs : List Bucket) (sf : TracedStore) (st : Store),
      (syncBuckets tracedM storeM bs sf st).src.1 = sf.1 ∧
      (ReadOnlyLog sf.2 → ReadOnlyLog (syncBuckets tracedM storeM bs sf st).src.2) := by
  intro bs
  induction bs with
  | nil => exact fun sf st => ⟨rfl, fun h => h⟩
  | cons b rest ih =>
    intro sf st
    unfold syncBuckets
    dsimp only
    have hb := sync_bucket_traced_src b sf st
    have hlog : ReadOnlyLog sf.2 → ReadOnlyLog (sync_bucket tracedM storeM b sf st).sf.2 := by
      intro h
      rcases hb.2 with heq | heq
      · rw [heq]; exact h
      · rw [heq]
        intro c hc
        rcases List.mem_append.mp hc with hc | hc
        · exact h c hc
        · simp only [List.mem_singleton] at hc
          subst hc
          exact Or.inr rfl
    cases hr : (sync_bucket tracedM storeM b sf st).res with
    | error e => exact ⟨hb.1, hlog⟩
    | ok d =>
      refine ⟨?_, fun h => ?_⟩
      · rw [(ih (sync_bucket tracedM storeM b sf st).sf
          (sync_bucket tracedM storeM b sf st).st).1, hb.1]
      · exact (ih (sync_bucket tracedM storeM b sf st).sf
          (sync_bucket tracedM storeM b sf st).st).2 (hlog h)

/-- C10: a pass is read-only on the source.  Run over the instrumented
source port, `sync_datastores` leaves the source store unchanged, and the
call log shows only `get_buckets` and `get_events` were invoked on the
source — never `create_bucket`, `insert_events` or `heartbeat`. -/
theorem C10_source_read_only (s : Store) (d : Store) :
    (sync_datastores tracedM storeM (s, ([] : List String)) d).src.1 = s ∧
    ReadOnlyLog (sync_datastores tracedM storeM (s, ([] : List String)) d).src.2 := by
  unfold sync_datastores
  dsimp only [tracedM, storeM]
  refine ⟨(syncBuckets_traced_src _ _ _).1, (syncBuckets_traced_src _ _ _).2 ?_⟩
  intro c hc
  rcases List.mem_append.mp hc with hc | hc
  · cases hc
  · simp only [List.mem_singleton] at hc
    subst hc
    exact Or.inl rfl

/-!
Infrastructure for the idempotence claim: the event list a destination
bucket holds after a heartbeat-commit fold, and its key invariants.
-/

/-- Event-list view of the commit fold: the destination bucket's list after
heartbeating `evs` (pulsetime 0) into a bucket holding `l`. -/
def hbList (l : List Event) (evs : List Event) : List Event :=
  evs.foldl (fun acc e => (hbStep 0 acc e).2) l

/-- The mirror bucket the engine builds for source bucket `b` with events
`ES` on a first pass into an empty destination. -/
def mirrorSB (b : Bucket) (ES : List Event) : StoreBucket :=
  ⟨mkSyncBucket b, hbList [] (ES.map stripId)⟩

/-- Well-formed source bucket contents: strictly increasing timestamps and
non-negative durations. -/
def GoodSrc (evs : List Event) : Prop :=
  evs.Pairwise tsLt ∧ ∀ e ∈ evs, 0 ≤ e.duration

/-- Timestamp of the last event, or the fallback. -/
def lastTs (t : Int) (evs : List Event) : Int :=
  match evs.getLast? with
  | some z => z.timestamp
  | none => t

/-- Duration of the last event, or the fallback. -/
def lastDur (d : Int) (evs : List Event) : Int :=
  match evs.getLast? with
  | some z => z.duration
  | none => d

theorem lastTs_cons (t : Int) (e : Event) (rest : List Event) :
    lastTs t (e :: rest) = lastTs e.timestamp rest := by
  cases rest with
  | nil => rfl
  | cons x xs =>
    obtain ⟨z, hz⟩ := Option.isSome_iff_exists.mp
      (List.getLast?_isSome.mpr (List.cons_ne_nil x xs))
    unfold lastTs
    rw [List.getLast?_cons_cons, hz]

theorem lastDur_cons (d : Int) (e : Event) (rest : List Event) :
    lastDur d (e :: rest) = lastDur e.duration rest := by
  cases rest with
  | nil => rfl
  | cons x xs =>
    obtain ⟨z, hz⟩ := Option.isSome_iff_exists.mp
      (List.getLast?_isSome.mpr (List.cons_ne_nil x xs))
    unfold lastDur
    rw [List.getLast?_cons_cons, hz]

theorem lastTs_spec {e z : Event} {rest : List Event}
    (h : (e :: rest).getLast? = some z) :
    lastTs e.timestamp rest = z.timestamp ∧ lastDur e.duration rest = z.duration := by
  cases rest with
  | nil =>
    simp only [List.getLast?_singleton, Option.some.injEq] at h
    subst h
    exact ⟨rfl, rfl⟩
  | cons x xs =>
    rw [List.getLast?_cons_cons] at h
    unfold lastTs lastDur
    rw [h]
    exact ⟨rfl, rfl⟩

theorem chain_of_pairwise : ∀ {e : Event} {rest : List Event},
    (e :: rest).Pairwise tsLt →
    List.Chain (fun a b : Int => a < b) e.timestamp (rest.map (fun x => x.timestamp)) := by
  intro e rest
  induction rest generalizing e with
  | nil => exact fun _ => List.Chain.nil
  | cons x xs ih =>
    intro h
    rw [List.pairwise_cons] at h
    exact List.Chain.cons (h.1 x (by simp)) (ih h.2)

theorem mergedEvent_timestamp (w e : Event) :
    (mergedEvent w e).timestamp = w.timestamp := rfl

theorem mergedEvent_endTime (w e : Event) :
    (mergedEvent w e).endTime = max w.endTime e.endTime := by
  unfold mergedEvent Event.endTime
  dsimp only
  omega

theorem mergedEvent_of_le {w e : Event} (h : e.endTime ≤ w.endTime) :
    mergedEvent w e = w := by
  simp only [mergedEvent, Event.endTime] at h ⊢
  obtain ⟨i, ts, d, dt⟩ := w
  dsimp only at h ⊢
  congr 1
  omega

theorem dropLast_append_getLast?_ev {L : List Event} {w : Event}
    (h : L.getLast? = some w) : L.dropLast ++ [w] = L := by
  obtain ⟨hne, rfl⟩ := List.mem_getLast?_eq_getLast h
  exact List.dropLast_append_getLast hne

theorem pairwise_le_last {L : List Event} {w : Event} (h : L.getLast? = some w)
    (hP : L.Pairwise tsLt) : ∀ a ∈ L, a.timestamp ≤ w.timestamp := by
  intro a ha
  rw [← dropLast_append_getLast?_ev h] at ha hP
  rw [List.pairwise_append] at hP
  rcases List.mem_append.mp ha with ha | ha
  · exact le_of_lt (hP.2.2 a ha w (by simp))
  · simp only [List.mem_singleton] at ha
    subst ha
    rfl

theorem pairwise_replace_last {L : List Event} {w m : Event}
    (h : L.getLast? = some w) (hP : L.Pairwise tsLt)
    (hts : m.timestamp = w.timestamp) : (L.dropLast ++ [m]).Pairwise tsLt := by
  rw [← dropLast_append_getLast?_ev h] at hP
  rw [List.pairwise_append] at hP ⊢
  refine ⟨hP.1, List.pairwise_singleton _ _, ?_⟩
  intro a ha b hb
  simp only [List.mem_singleton] at hb
  have hm : a.timestamp < m.timestamp := by
    rw [hts]
    exact hP.2.2 a ha w (by simp)
  rw [hb]
  exact hm

theorem updateB_id (s : Store) (bucket_id : String) :
    updateB s bucket_id (fun l => l) = s := by
  induction s with
  | nil => rfl
  | cons x xs ih =>
    unfold updateB
    by_cases hx : x.bucket.id = bucket_id
    · rw [if_pos hx]
    · rw [if_neg hx, ih]

theorem updateB_singleton {sb : StoreBucket} {bucket_id : String}
    (h : sb.bucket.id = bucket_id) (f : List Event → List Event) :
    updateB [sb] bucket_id f = [{ sb with events := f sb.events }] := by
  unfold updateB
  rw [if_pos h]

theorem storeM_events {s : Store} {bucket_id : String} {sb : StoreBucket}
    (h : findB s bucket_id = some sb) (start stop : Option Int) (limit : Option Nat) :
    storeM.get_events s bucket_id start stop limit =
      .ok (applyLim limit (applyRange start stop (sortByTs sb.events)), s) := by
  simp only [storeM, h]

theorem storeM_count {s : Store} {bucket_id : String} {sb : StoreBucket}
    (h : findB s bucket_id = some sb) :
    storeM.get_event_count s bucket_id none none =
      .ok ((sb.events.length : Int), s) := by
  simp only [storeM, h, applyRange_none_none, length_sortByTs]

theorem hbLoop_storeM_char :
    ∀ (evs : List Event) (s : Store) (bucket_id : String) (sb : StoreBucket),
      findB s bucket_id = some sb →
      hbLoop storeM bucket_id s evs = (updateB s bucket_id (fun l => hbList l evs), none) := by
  intro evs
  induction evs with
  | nil =>
    intro s bucket_id sb h
    show (s, none) = (updateB s bucket_id (fun l => l), none)
    rw [updateB_id]
  | cons e rest ih =>
    intro s bucket_id sb h
    have hh : storeM.heartbeat s bucket_id e 0 =
        .ok ((hbStep 0 sb.events e).1, updateB s bucket_id (fun l => (hbStep 0 l e).2)) := by
      simp only [storeM, h]
    unfold hbLoop
    rw [hh]
    dsimp only
    rw [ih _ bucket_id _ (findB_updateB_self h (fun l => (hbStep 0 l e).2)),
      updateB_updateB]
    rfl

/-- Invariant of the pulsetime-0 heartbeat fold: starting from a bucket whose
last event starts no later than `t` and covers through the end of the event
`(t, d)`, folding a strictly-later chain of non-negative-duration events
keeps the list strictly ascending and leaves a last event that starts no
later than the last input and covers through its end. -/
theorem hbList_inv :
    ∀ (evs : List Event) (L : List Event) (w : Event) (t d : Int),
      L.getLast? = some w → L.Pairwise tsLt →
      w.timestamp ≤ t → t + d ≤ w.endTime →
      (∀ e ∈ evs, 0 ≤ e.duration) →
      List.Chain (fun a b : Int => a < b) t (evs.map (fun x => x.timestamp)) →
      ∃ w2, (hbList L evs).getLast? = some w2 ∧ (hbList L evs).Pairwise tsLt ∧
        w2.timestamp ≤ lastTs t evs ∧ lastTs t evs + lastDur d evs ≤ w2.endTime := by
  intro evs
  induction evs with
  | nil =>
    intro L w t d hlast hP hts hend _ _
    exact ⟨w, hlast, hP, hts, hend⟩
  | cons e rest ih =>
    intro L w t d hlast hP hts hend hdur hchain
    rw [List.map_cons, List.chain_cons] at hchain
    have hte : t < e.timestamp := hchain.1
    have hstep : hbList L (e :: rest) = hbList (hbStep 0 L e).2 rest := rfl
    rw [hstep, lastTs_cons, lastDur_cons]
    by_cases hgap : -(0 : Int) ≤ e.timestamp - w.endTime ∧ e.timestamp - w.endTime ≤ 0
    · -- merge: the last event is extended to cover `e`
      rw [hbStep_merge hlast hgap]
      refine ih (L.dropLast ++ [mergedEvent w e]) (mergedEvent w e) e.timestamp e.duration
        (List.getLast?_concat _) (pairwise_replace_last hlast hP (mergedEvent_timestamp w e))
        ?_ ?_ (fun x hx => hdur x (by simp [hx])) hchain.2
      · rw [mergedEvent_timestamp]
        exact le_of_lt (lt_of_le_of_lt hts hte)
      · rw [mergedEvent_endTime]
        exact le_trans (le_refl e.endTime) (le_max_right _ _)
    · -- insert: `e` is appended as a new last event
      rw [hbStep_insert hlast hgap]
      have hPnew : (L ++ [e]).Pairwise tsLt := by
        rw [List.pairwise_append]
        refine ⟨hP, List.pairwise_singleton _ _, ?_⟩
        intro a ha b hb
        simp only [List.mem_singleton] at hb
        rw [hb]
        exact lt_of_le_of_lt (le_trans (pairwise_le_last hlast hP a ha) hts) hte
      exact ih (L ++ [e]) e e.timestamp e.duration (List.getLast?_concat _) hPnew
        (le_refl _) (le_refl _) (fun x hx => hdur x (by simp [hx])) hchain.2

/-- Key facts about a mirror bucket produced by a first pass from empty:
its events are strictly ascending, it is empty iff the source delta was,
and its last event starts no later than, and covers through the end of,
the last source event. -/
theorem hbList_from_empty (evs : List Event) (hgood : GoodSrc evs) :
    (hbList [] evs).Pairwise tsLt ∧
    (hbList [] evs = [] ↔ evs = []) ∧
    (∀ z, evs.getLast? = some z →
      ∃ w, (hbList [] evs).getLast? = some w ∧ w.timestamp ≤ z.timestamp ∧
        z.timestamp + z.duration ≤ w.endTime) := by
  cases evs with
  | nil => exact ⟨List.Pairwise.nil, by simp [hbList], fun z hz => by simp at hz⟩
  | cons e rest =>
    have hstep : hbList [] (e :: rest) = hbList [e] rest := by
      show hbList (hbStep 0 [] e).2 rest = _
      rw [hbStep_empty 0 [] e rfl]
    obtain ⟨w2, hw2, hP2, hts2, hend2⟩ :=
      hbList_inv rest [e] e e.timestamp e.duration rfl
        (List.pairwise_singleton _ _) (le_refl _) (le_refl _)
        (fun x hx => hgood.2 x (by simp [hx]))
        (chain_of_pairwise hgood.1)
    rw [hstep]
    have hne : hbList [e] rest ≠ [] := by
      intro hnil
      rw [hnil] at hw2
      cases hw2
    refine ⟨hP2, by simp [hne], ?_⟩
    intro z hz
    obtain ⟨h1, h2⟩ := lastTs_spec hz
    exact ⟨w2, hw2, by rw [← h1]; exact hts2, by rw [← h1, ← h2]; exact hend2⟩

/-- Characterization of the second-pass refetch: with the resume bound `T`
at or past the end of the last source event, the refetch is empty, or it is
exactly the last source event, which then has zero duration and starts
exactly at `T`. -/
theorem refetch_char {evs : List Event} {z : Event} (hgood : GoodSrc evs)
    (hz : evs.getLast? = some z) {T : Int} (hT : z.timestamp + z.duration ≤ T) :
    (¬ T ≤ z.timestamp ∧ evs.filter (fun e => decide (T ≤ e.timestamp)) = []) ∨
    (z.timestamp = T ∧ z.duration = 0 ∧
      evs.filter (fun e => decide (T ≤ e.timestamp)) = [z]) := by
  have hL := dropLast_append_getLast?_ev hz
  have hdropfilter : evs.dropLast.filter (fun e => decide (T ≤ e.timestamp)) = [] := by
    rw [List.filter_eq_nil_iff]
    intro a ha
    have hlt : a.timestamp < z.timestamp := by
      rw [← hL] at hgood
      have hPa := hgood.1
      rw [List.pairwise_append] at hPa
      exact hPa.2.2 a ha z (by simp)
    have hdz : 0 ≤ z.duration := hgood.2 z (mem_of_getLast?_ev hz)
    simp only [decide_eq_true_eq]
    omega
  by_cases hTz : T ≤ z.timestamp
  · right
    have hdz : 0 ≤ z.duration := hgood.2 z (mem_of_getLast?_ev hz)
    refine ⟨by omega, by omega, ?_⟩
    rw [← hL, List.filter_append, hdropfilter, List.nil_append]
    simp [hTz]
  · left
    refine ⟨hTz, ?_⟩
    rw [← hL, List.filter_append, hdropfilter, List.nil_append]
    simp [hTz]

theorem goodSrc_map_strip {evs : List Event} (h : GoodSrc evs) :
    GoodSrc (evs.map stripId) := by
  constructor
  · exact List.pairwise_map.mpr h.1
  · intro e he
    obtain ⟨x, hx, rfl⟩ := List.mem_map.mp he
    exact h.2 x hx

theorem getLast?_map_ev (f : Event → Event) :
    ∀ l : List Event, (l.map f).getLast? = (l.getLast?).map f
  | [] => rfl
  | [x] => rfl
  | x :: y :: ys => by
    have ih := getLast?_map_ev f (y :: ys)
    rw [List.map_cons] at ih
    rw [List.map_cons, List.map_cons, List.getLast?_cons_cons, ih,
      List.getLast?_cons_cons]

theorem sortByTs_of_good {evs : List Event} (h : GoodSrc evs) :
    sortByTs evs = evs :=
  sortByTs_of_sorted (h.1.imp tsLt_le)

/-- First pass over one bucket into a destination that lacks its mirror: the
mirror is created and filled with the heartbeat fold of the normalized
source events; the source is untouched and no panic occurs. -/
theorem sync_bucket_pass1 (src d : Store) (sb : StoreBucket)
    (hfind : findB src sb.bucket.id = some sb)
    (hgood : GoodSrc sb.events)
    (hmirror : findB d (newSyncId sb.bucket) = none) :
    ∃ n : Int, sync_bucket storeM storeM sb.bucket src d =
      ⟨src, d ++ [mirrorSB sb.bucket sb.events], .ok n⟩ := by
  have hid : (mkSyncBucket sb.bucket).id = newSyncId sb.bucket := rfl
  have hd1 : findB (d ++ [⟨mkSyncBucket sb.bucket, []⟩]) (newSyncId sb.bucket) =
      some ⟨mkSyncBucket sb.bucket, []⟩ := by
    rw [findB_append_of_none hmirror]
    unfold findB
    rw [if_pos hid]
  have hid2 : (mirrorSB sb.bucket sb.events).bucket.id = newSyncId sb.bucket := rfl
  have hd2 : findB (d ++ [mirrorSB sb.bucket sb.events]) (newSyncId sb.bucket) =
      some (mirrorSB sb.bucket sb.events) := by
    rw [findB_append_of_none hmirror]
    unfold findB
    rw [if_pos hid2]
  refine ⟨((mirrorSB sb.bucket sb.events).events.length : Int) -
    ((([] : List Event)).length : Int), ?_⟩
  unfold sync_bucket
  rw [gocb_create hmirror]
  dsimp only
  rw [hid, storeM_count hd1]
  dsimp only
  rw [storeM_events hd1 none none (some 1)]
  dsimp only
  rw [show resumeOf (applyLim (some 1) (applyRange none none (sortByTs ([] : List Event)))) =
    none from rfl]
  rw [storeM_events hfind none none none]
  dsimp only
  rw [show applyLim none (applyRange none none (sortByTs sb.events)) = sortByTs sb.events
    from by rw [applyRange_none_none]; rfl]
  rw [sortByTs_of_good hgood]
  rw [show commitList sb.events = sb.events.map stripId from
    sortByTs_of_sorted (List.pairwise_map.mpr ((hgood.1.imp tsLt_le)))]
  rw [hbLoop_storeM_char _ _ _ _ hd1]
  dsimp only
  rw [show updateB (d ++ [⟨mkSyncBucket sb.bucket, []⟩]) (newSyncId sb.bucket)
      (fun l => hbList l (sb.events.map stripId)) = d ++ [mirrorSB sb.bucket sb.events]
    from by rw [updateB_append_of_none hmirror, updateB_singleton hid]; rfl]
  rw [storeM_count hd2]

/-- Second pass over one bucket whose mirror already holds the first-pass
fold: the destination is left exactly as it was and the reported delta is
zero. -/
theorem sync_bucket_pass2 (src d : Store) (sb : StoreBucket)
    (hfind : findB src sb.bucket.id = some sb)
    (hgood : GoodSrc sb.events)
    (hmirror : findB d (newSyncId sb.bucket) = some (mirrorSB sb.bucket sb.events)) :
    sync_bucket storeM storeM sb.bucket src d = ⟨src, d, .ok 0⟩ := by
  have hgood2 : GoodSrc (sb.events.map stripId) := goodSrc_map_strip hgood
  obtain ⟨hP, hiff, hlastfact⟩ := hbList_from_empty (sb.events.map stripId) hgood2
  have hLsorted : sortByTs (hbList [] (sb.events.map stripId)) =
      hbList [] (sb.events.map stripId) := sortByTs_of_sorted (hP.imp tsLt_le)
  unfold sync_bucket
  rw [gocb_found hmirror]
  dsimp only
  rw [show (mirrorSB sb.bucket sb.events).bucket.id = newSyncId sb.bucket from rfl,
    storeM_count hmirror]
  dsimp only
  rw [storeM_events hmirror none none (some 1)]
  dsimp only
  rw [show applyLim (some 1) (applyRange none none
      (sortByTs (mirrorSB sb.bucket sb.events).events)) =
    applyLim (some 1) (hbList [] (sb.events.map stripId))
    from by rw [applyRange_none_none]; exact congrArg _ hLsorted]
  by_cases hnil : sb.events = []
  · -- the source bucket is empty: nothing was mirrored, nothing is fetched
    have hLnil : hbList [] (sb.events.map stripId) = [] := by
      rw [hiff, List.map_eq_nil_iff]
      exact hnil
    rw [hLnil]
    rw [show resumeOf (applyLim (some 1) ([] : List Event)) = none from rfl]
    rw [storeM_events hfind none none none]
    dsimp only
    rw [show applyLim none (applyRange none none (sortByTs sb.events)) = sortByTs sb.events
      from by rw [applyRange_none_none]; rfl]
    rw [sortByTs_of_good hgood]
    rw [show commitList sb.events = [] from by rw [hnil]; rfl]
    rw [hbLoop_storeM_char _ _ _ _ hmirror]
    dsimp only
    rw [show updateB d (newSyncId sb.bucket) (fun l => hbList l []) = d from
      updateB_id d (newSyncId sb.bucket)]
    rw [storeM_count hmirror]
    dsimp only
    rw [show ((mirrorSB sb.bucket sb.events).events.length : Int) -
      ((mirrorSB sb.bucket sb.events).events.length : Int) = 0 from by omega]
  · -- the mirror is nonempty: the refetch is at most the boundary event and
    -- merging it back is a no-op
    obtain ⟨z, hz⟩ := Option.isSome_iff_exists.mp (List.getLast?_isSome.mpr hnil)
    have hz2 : (sb.events.map stripId).getLast? = some (stripId z) := by
      rw [getLast?_map_ev, hz]
      rfl
    obtain ⟨w, hw, hwts, hwend⟩ := hlastfact (stripId z) hz2
    rw [applyLim_one hw]
    rw [show resumeOf [w] = some w.endTime from rfl]
    rw [storeM_events hfind (some w.endTime) none none]
    dsimp only
    rw [show applyLim none (applyRange (some w.endTime) none (sortByTs sb.events)) =
      sb.events.filter (fun e => decide (w.endTime ≤ e.timestamp))
      from by rw [sortByTs_of_good hgood, applyRange_some_none]; rfl]
    have hzdur : 0 ≤ z.duration := hgood.2 z (mem_of_getLast?_ev hz)
    have hTz : z.timestamp + z.duration ≤ w.endTime := hwend
    rcases refetch_char hgood hz hTz with ⟨hlt, hfil⟩ | ⟨hts0, hdur0, hfil⟩
    · -- empty refetch
      rw [hfil]
      rw [show commitList [] = [] from rfl]
      rw [hbLoop_storeM_char _ _ _ _ hmirror]
      dsimp only
      rw [show updateB d (newSyncId sb.bucket) (fun l => hbList l []) = d from
        updateB_id d (newSyncId sb.bucket)]
      rw [storeM_count hmirror]
      dsimp only
      rw [show ((mirrorSB sb.bucket sb.events).events.length : Int) -
        ((mirrorSB sb.bucket sb.events).events.length : Int) = 0 from by omega]
    · -- the boundary event is refetched and merges without change
      rw [hfil]
      rw [show commitList [z] = [stripId z] from rfl]
      rw [hbLoop_storeM_char _ _ _ _ hmirror]
      dsimp only
      have hmerge : hbList (mirrorSB sb.bucket sb.events).events [stripId z] =
          (mirrorSB sb.bucket sb.events).events := by
        show (hbStep 0 (hbList [] (sb.events.map stripId)) (stripId z)).2 =
          hbList [] (sb.events.map stripId)
        have hgap : -(0 : Int) ≤ (stripId z).timestamp - w.endTime ∧
            (stripId z).timestamp - w.endTime ≤ 0 := by
          show -(0 : Int) ≤ z.timestamp - w.endTime ∧ z.timestamp - w.endTime ≤ 0
          omega
        rw [hbStep_merge hw hgap]
        dsimp only
        rw [mergedEvent_of_le (by show z.timestamp + z.duration ≤ w.endTime; omega)]
        exact dropLast_append_getLast?_ev hw
      rw [show updateB d (newSyncId sb.bucket) (fun l => hbList l [stripId z]) = d from
        updateB_eq_self hmirror hmerge]
      rw [storeM_count hmirror]
      dsimp only
      rw [show ((mirrorSB sb.bucket sb.events).events.length : Int) -
        ((mirrorSB sb.bucket sb.events).events.length : Int) = 0 from by omega]

theorem findB_self {s : Store}
    (h : (s.map (fun sb => sb.bucket.id)).Pairwise (fun a b => a ≠ b)) :
    ∀ sb ∈ s, findB s sb.bucket.id = some sb := by
  induction s with
  | nil => intro sb hsb; cases hsb
  | cons x xs ih =>
    rw [List.map_cons, List.pairwise_cons] at h
    intro sb hsb
    rcases List.mem_cons.mp hsb with rfl | hsb
    · unfold findB
      rw [if_pos rfl]
    · unfold findB
      rw [if_neg (h.1 sb.bucket.id (List.mem_map.mpr ⟨sb, hsb, rfl⟩)),
        ih h.2 sb hsb]

theorem findB_mirrors {sbs : List StoreBucket}
    (h : (sbs.map (fun sb => newSyncId sb.bucket)).Pairwise (fun a b => a ≠ b)) :
    ∀ sb ∈ sbs,
      findB (sbs.map (fun x => mirrorSB x.bucket x.events)) (newSyncId sb.bucket) =
        some (mirrorSB sb.bucket sb.events) := by
  induction sbs with
  | nil => intro sb hsb; cases hsb
  | cons x xs ih =>
    rw [List.map_cons, List.pairwise_cons] at h
    intro sb hsb
    rw [List.map_cons]
    rcases List.mem_cons.mp hsb with rfl | hsb
    · unfold findB
      rw [if_pos (show (mirrorSB sb.bucket sb.events).bucket.id =
        newSyncId sb.bucket from rfl)]
    · unfold findB
      have hne : (mirrorSB x.bucket x.events).bucket.id ≠ newSyncId sb.bucket := by
        show newSyncId x.bucket ≠ newSyncId sb.bucket
        exact h.1 (newSyncId sb.bucket) (List.mem_map.mpr ⟨sb, hsb, rfl⟩)
      rw [if_neg hne, ih h.2 sb hsb]

theorem syncBuckets_pass1 :
    ∀ (sbs : List StoreBucket) (src d : Store),
      (∀ sb ∈ sbs, findB src sb.bucket.id = some sb) →
      (∀ sb ∈ sbs, GoodSrc sb.events) →
      (∀ sb ∈ sbs, findB d (newSyncId sb.bucket) = none) →
      (sbs.map (fun sb => newSyncId sb.bucket)).Pairwise (fun a b => a ≠ b) →
      ∃ ds, syncBuckets storeM storeM (sbs.map (fun sb => sb.bucket)) src d =
        ⟨src, d ++ sbs.map (fun x => mirrorSB x.bucket x.events), ds, none⟩ := by
  intro sbs
  induction sbs with
  | nil =>
    intro src d _ _ _ _
    refine ⟨[], ?_⟩
    show (⟨src, d, [], none⟩ : SyncOutcome Store Store) = _
    rw [List.map_nil, List.append_nil]
  | cons x xs ih =>
    intro src d h1 h2 h3 h4
    rw [List.map_cons, List.pairwise_cons] at h4
    obtain ⟨n, hn⟩ := sync_bucket_pass1 src d x (h1 x (by simp)) (h2 x (by simp))
      (h3 x (by simp))
    have h3x : ∀ sb ∈ xs,
        findB (d ++ [mirrorSB x.bucket x.events]) (newSyncId sb.bucket) = none := by
      intro sb hsb
      rw [findB_append_of_none (h3 sb (by simp [hsb]))]
      unfold findB
      rw [if_neg (show (mirrorSB x.bucket x.events).bucket.id ≠ newSyncId sb.bucket from
        h4.1 _ (List.mem_map.mpr ⟨sb, hsb, rfl⟩))]
      rfl
    obtain ⟨ds, hds⟩ := ih src (d ++ [mirrorSB x.bucket x.events])
      (fun sb hsb => h1 sb (by simp [hsb])) (fun sb hsb => h2 sb (by simp [hsb])) h3x h4.2
    refine ⟨n :: ds, ?_⟩
    rw [List.map_cons]
    unfold syncBuckets
    dsimp only
    rw [hn]
    dsimp only
    rw [hds]
    dsimp only
    simp [List.append_assoc]

theorem syncBuckets_pass2 :
    ∀ (sbs : List StoreBucket) (src d : Store),
      (∀ sb ∈ sbs, findB src sb.bucket.id = some sb) →
      (∀ sb ∈ sbs, GoodSrc sb.events) →
      (∀ sb ∈ sbs, findB d (newSyncId sb.bucket) = some (mirrorSB sb.bucket sb.events)) →
      syncBuckets storeM storeM (sbs.map (fun sb => sb.bucket)) src d =
        ⟨src, d, List.replicate sbs.length 0, none⟩ := by
  intro sbs
  induction sbs with
  | nil => intro src d _ _ _; rfl
  | cons x xs ih =>
    intro src d h1 h2 h3
    have hx := sync_bucket_pass2 src d x (h1 x (by simp)) (h2 x (by simp)) (h3 x (by simp))
    rw [List.map_cons]
    unfold syncBuckets
    dsimp only
    rw [hx]
    dsimp only
    rw [ih src d (fun sb hsb => h1 sb (by simp [hsb])) (fun sb hsb => h2 sb (by simp [hsb]))
      (fun sb hsb => h3 sb (by simp [hsb]))]
    rw [List.length_cons, List.replicate_succ]

theorem sync_datastores_storeM (src d : Store) :
    sync_datastores storeM storeM src d =
      syncBuckets storeM storeM (src.map (fun sb => sb.bucket)) src d := rfl

/-!
Claim C2 — derivation of the destination bucket id.
-/

/-- C2: the derived destination id is the source id with the `\x22-synced\x22`
occurrences removed by the left-to-right scan, followed by the literal
`\x22-synced-from-\x22` and the source hostname; the scan leaves occurrence-free
ids unchanged and removes each leading occurrence; the derivation is a pure
function of the source id and hostname; and over the modelled store the
bucket `get_or_create_sync_bucket` returns always carries exactly this id. -/
theorem C2_destination_id (b : Bucket) :
    (newSyncId b).data = stripSynced b.id.data ++ syncedFromL ++ b.hostname.data ∧
    (∀ l : List Char, NoOcc syncedL l → stripSynced l = l) ∧
    (∀ l : List Char, stripSynced (syncedL ++ l) = stripSynced l) ∧
    (∀ b2 : Bucket, b2.id = b.id → b2.hostname = b.hostname → newSyncId b2 = newSyncId b) ∧
    (∀ (s : Store) (bkt : Bucket) (s2 : Store),
      get_or_create_sync_bucket storeM b s = .ok (bkt, s2) → bkt.id = newSyncId b) := by
  refine ⟨?_, fun l h => stripSynced_of_noOcc h, stripSynced_drop, ?_, ?_⟩
  · rw [newSyncId, String.data_append, String.data_append]
    rfl
  · intro b2 h1 h2
    rw [newSyncId, newSyncId, h1, h2]
  · intro s bkt s2 h
    exact gocb_id h

/-- C2 witness: the derivation evaluated on a concrete bucket, the purity of
the derivation on a field-for-field copy, and the id of the bucket returned
by a concrete mapper run. -/
theorem C2_witness :
    (newSyncId bSrc1).data = stripSynced bSrc1.id.data ++ syncedFromL ++ bSrc1.hostname.data ∧
    newSyncId (Bucket.mk "b1" "other-type" "host1" "other-client" []) = newSyncId bSrc1 ∧
    (mkSyncBucket bSrc1).id = newSyncId bSrc1 :=
  ⟨(C2_destination_id bSrc1).1,
    (C2_destination_id bSrc1).2.2.2.1 (Bucket.mk "b1" "other-type" "host1" "other-client" [])
      rfl rfl,
    (C2_destination_id bSrc1).2.2.2.2 [] (mkSyncBucket bSrc1)
      [⟨mkSyncBucket bSrc1, []⟩] (by rfl)⟩

/-!
Claim C3 — determinism of the mapper and absence of suffix accumulation on
mirror buckets.

As stated over all buckets the no-double-suffix half is false on the code:
Rust `replace` removes occurrences in a single left-to-right scan, so the
remnants around a removed occurrence can splice into a new `\x22-synced\x22`
that survives the scan.  The id `\x22-syn-syncedced-synced-from-h1\x22` ends in
exactly one `\x22-synced-from-*\x22` suffix, yet with a perfectly clean
hostname the derived id carries the marker twice.  The property holds once
the components of the mirror id and the hostname are themselves free of
`\x22-synced\x22` occurrences (and the hosts do not start with `\x22synced\x22`).
-/

/-- A mirror bucket whose base part splices into a fresh `\x22-synced\x22` when
the scan removes the inner occurrence: its id still ends in exactly one
`\x22-synced-from-*\x22` suffix, and its hostname is clean. -/
def bSplice : Bucket :=
  ⟨"-syn-syncedced-synced-from-h1", "window", "host2", "client1", []⟩

/-- C3 counterexample: `bSplice`'s id ends in exactly one `\x22-synced-from-*\x22`
suffix (the marker occurs exactly once in it) and its hostname contains no
`\x22-synced\x22` and does not start with `\x22synced\x22`, yet the id the mapper
derives for it is doubly-suffixed: the marker occurs twice, refuting the
claim as stated. -/
theorem C3_counterexample :
    bSplice.id.data = "-syn-syncedced".toList ++ syncedFromL ++ "h1".toList ∧
    occAtCount syncedFromL bSplice.id.data = 1 ∧
    hasOcc syncedL bSplice.hostname.data = false ∧
    "synced".toList.isPrefixOf bSplice.hostname.data = false ∧
    newSyncId bSplice = "-synced-from-h1-synced-from-host2" ∧
    occAtCount syncedFromL (newSyncId bSplice).data = 2 := by
  decide

/-- C3 (amended): `get_or_create_sync_bucket` applied twice to the same
source bucket derives the same destination id both times; and applied to a
bucket that is itself a mirror — its id is `base ++ \x22-synced-from-\x22 ++
host1` with the components free of `\x22-synced\x22` occurrences (and the hosts
not starting with `\x22synced\x22`) — the derived id still carries exactly one
`\x22-synced-from-\x22` marker: no doubly-suffixed id is produced. -/
theorem C3_no_double_suffix (bm : Bucket) (base h1 : List Char)
    (hid : bm.id.data = base ++ syncedFromL ++ h1)
    (hbase : hasOcc syncedL base = false)
    (hh1 : hasOcc syncedL h1 = false)
    (hh1p : "synced".toList.isPrefixOf h1 = false)
    (hh2 : hasOcc syncedL bm.hostname.data = false)
    (hh2p : "synced".toList.isPrefixOf bm.hostname.data = false) :
    (∀ (s : Store) (bkt : Bucket) (s2 : Store) (bkt2 : Bucket) (s3 : Store),
      get_or_create_sync_bucket storeM bm s = .ok (bkt, s2) →
      get_or_create_sync_bucket storeM bm s2 = .ok (bkt2, s3) → bkt.id = bkt2.id) ∧
    (∃ p h, (newSyncId bm).data = p ++ syncedFromL ++ h) ∧
    occAtCount syncedFromL (newSyncId bm).data = 1 := by
  have hbase2 : NoOcc syncedL base := noOcc_of_hasOcc_false (by decide) hbase
  have hh12 : NoOcc syncedL h1 := noOcc_of_hasOcc_false (by decide) hh1
  have hh22 : NoOcc syncedL bm.hostname.data := noOcc_of_hasOcc_false (by decide) hh2
  have hh1p2 : ¬ "synced".toList <+: h1 := fun hp => by
    have hb := isPrefixOfIff.mpr hp
    rw [hh1p] at hb
    exact Bool.noConfusion hb
  have hh2p2 : ¬ "synced".toList <+: bm.hostname.data := fun hp => by
    have hb := isPrefixOfIff.mpr hp
    rw [hh2p] at hb
    exact Bool.noConfusion hb
  have hdata : (newSyncId bm).data =
      (base ++ (fromL ++ h1)) ++ (syncedFromL ++ bm.hostname.data) := by
    rw [newSyncId, String.data_append, String.data_append]
    show stripSynced bm.id.data ++ syncedFromL ++ bm.hostname.data = _
    rw [hid, List.append_assoc base syncedFromL h1,
      stripSynced_mirror base h1 hbase2 hh12 hh1p2, List.append_assoc]
  refine ⟨?_, ⟨base ++ (fromL ++ h1), bm.hostname.data, ?_⟩, ?_⟩
  · intro s bkt s2 bkt2 s3 he1 he2
    rw [gocb_id he1, gocb_id he2]
  · rw [hdata]
    simp [List.append_assoc]
  · rw [hdata]
    exact occAtCount_sfL _ _ (noOcc_mirror hbase2 hh12 hh1p2) hh22 hh2p2

/-- A mirror bucket: its id already carries one `\x22-synced-from-\x22` suffix,
and it lives on host2. -/
def bMirror : Bucket :=
  ⟨"aw-watcher-window-synced-from-host1", "window", "host2", "client1", []⟩

/-- C3 witness: the mirror fixture re-synced — the mapper derives the same
id on two successive runs, and the derived id carries exactly one
`\x22-synced-from-\x22` marker. -/
theorem C3_witness :
    (mkSyncBucket bMirror).id = (mkSyncBucket bMirror).id ∧
    (∃ p h, (newSyncId bMirror).data = p ++ syncedFromL ++ h) ∧
    occAtCount syncedFromL (newSyncId bMirror).data = 1 :=
  ⟨(C3_no_double_suffix bMirror "aw-watcher-window".toList "host1".toList
      (by decide) (by decide) (by decide) (by decide) (by decide) (by decide)).1
      [] (mkSyncBucket bMirror) [⟨mkSyncBucket bMirror, []⟩]
      (mkSyncBucket bMirror) [⟨mkSyncBucket bMirror, []⟩] (by rfl) (by rfl),
    (C3_no_double_suffix bMirror "aw-watcher-window".toList "host1".toList
      (by decide) (by decide) (by decide) (by decide) (by decide) (by decide)).2.1,
    (C3_no_double_suffix bMirror "aw-watcher-window".toList "host1".toList
      (by decide) (by decide) (by decide) (by decide) (by decide) (by decide)).2.2⟩

/-!
Claim C8 — second-pass idempotence.

The claim as stated fails on the code: re-fetching the boundary events
(timestamp at the resume point) can re-insert rather than re-merge when two
source events share a timestamp, because the merge-window test compares the
new event only against the most recently written one.
-/

instance : DecidableRel tsLt :=
  fun a b => inferInstanceAs (Decidable (a.timestamp < b.timestamp))

instance : DecidableRel tsLe :=
  fun a b => inferInstanceAs (Decidable (a.timestamp ≤ b.timestamp))

instance (evs : List Event) : Decidable (GoodSrc evs) :=
  inferInstanceAs (Decidable (evs.Pairwise tsLt ∧ ∀ e ∈ evs, 0 ≤ e.duration))

/-- A source store whose single bucket holds two events with the same
timestamp (one of duration 5, one of duration 0). -/
def srcDup : Store := [⟨bSrc1, [⟨some 1, 10, 5, []⟩, ⟨some 2, 10, 0, []⟩]⟩]

/-- A well-formed source store: strictly increasing timestamps, zero
durations. -/
def srcGood : Store := [⟨bSrc1, [⟨some 1, 0, 0, []⟩, ⟨some 2, 10, 0, []⟩]⟩]

/-- C8 counterexample: syncing `srcDup` into an empty destination twice,
with no events added in between, reports a second-pass delta of 1 (a
duplicated boundary event), not 0: the first pass completes cleanly with
delta 2, yet on the second pass the resume point re-fetches both `t = 10`
events, the first re-merges and the second re-inserts. -/
theorem C8_counterexample :
    (sync_datastores storeM storeM srcDup ([] : Store)).panicMsg = none ∧
    (sync_datastores storeM storeM srcDup ([] : Store)).deltas = [2] ∧
    (sync_datastores storeM storeM srcDup
        (sync_datastores storeM storeM srcDup ([] : Store)).dst).panicMsg = none ∧
    (sync_datastores storeM storeM srcDup
        (sync_datastores storeM storeM srcDup ([] : Store)).dst).deltas = [1] := by
  decide

/-- C8 (amended): for a source store whose buckets have pairwise-distinct
ids, pairwise-distinct derived mirror ids, strictly increasing timestamps
and non-negative durations per bucket, running the pass twice from an empty
destination — with no events added in between — reports a second-pass delta
of 0 for every bucket, and the second pass leaves the destination store
untouched. -/
theorem C8_amended_second_pass_delta_zero (src : Store)
    (hids : (src.map (fun sb => sb.bucket.id)).Pairwise (fun a b => a ≠ b))
    (hdest : (src.map (fun sb => newSyncId sb.bucket)).Pairwise (fun a b => a ≠ b))
    (hgood : ∀ sb ∈ src, GoodSrc sb.events) :
    (sync_datastores storeM storeM src ([] : Store)).panicMsg = none ∧
    (sync_datastores storeM storeM src
        (sync_datastores storeM storeM src ([] : Store)).dst).deltas =
      List.replicate src.length 0 ∧
    (sync_datastores storeM storeM src
        (sync_datastores storeM storeM src ([] : Store)).dst).dst =
      (sync_datastores storeM storeM src ([] : Store)).dst := by
  have hself := findB_self hids
  obtain ⟨ds, hds⟩ := syncBuckets_pass1 src src [] hself hgood (fun sb _ => rfl) hdest
  have hpass1 : sync_datastores storeM storeM src ([] : Store) =
      ⟨src, src.map (fun x => mirrorSB x.bucket x.events), ds, none⟩ := by
    rw [sync_datastores_storeM, hds, List.nil_append]
  have hpass2 := syncBuckets_pass2 src src
    (src.map (fun x => mirrorSB x.bucket x.events)) hself hgood (findB_mirrors hdest)
  refine ⟨by rw [hpass1], ?_, ?_⟩
  · rw [hpass1]
    dsimp only
    rw [sync_datastores_storeM, hpass2]
  · rw [hpass1]
    dsimp only
    rw [sync_datastores_storeM, hpass2]

/-- C8 witness: the amended idempotence realized on the well-formed concrete
store `srcGood`. -/
theorem C8_witness :
    (sync_datastores storeM storeM srcGood ([] : Store)).panicMsg = none ∧
    (sync_datastores storeM storeM srcGood
        (sync_datastores storeM storeM srcGood ([] : Store)).dst).deltas =
      List.replicate srcGood.length 0 ∧
    (sync_datastores storeM storeM srcGood
        (sync_datastores storeM storeM srcGood ([] : Store)).dst).dst =
      (sync_datastores storeM storeM srcGood ([] : Store)).dst :=
  C8_amended_second_pass_delta_zero srcGood (by decide) (by decide) (by decide)

end AwSync
